import Mathlib

/-!
Verification of the multiarg-dispatch repository.

We give a shallow embedding of the dispatch core:

* `src/src/__init__.py` — the single-argument resolver: `_c3_merge`,
  `_c3_mro`, `_compose_mro`, `_find_impl`, `dispatch` (with its cache).
* `src/multiarg_dispatch/main.py` — the multi-argument resolver:
  `_find_impl`, `dispatch`, the call `wrapper`.
* `src/src/multidispatch.py` — the second multi-argument variant of
  `_find_impl` (with the arity guard) and its `wrapper`.

Python classes are embedded as natural numbers.  A `ClassTable` carries the
static facts the code reads off a class object: its direct bases
(`__bases__`), whether it has `__abstractmethods__`, the `issubclass`
relation (which includes virtual/ABC-registered subclassing), and its direct
`__subclasses__`.  Well-formedness facts that hold of every real Python
hierarchy (direct bases of a class have smaller indices — i.e. the numbering
is topological — and `issubclass x y` implies `y ≤ x`) appear as explicit
hypotheses on theorems that need them.

Unbounded `while`/recursion in the source is embedded with a fuel parameter;
running out of fuel is a distinguished error (`MergeError.fuel`), separate
from the source's `RuntimeError("Inconsistent hierarchy")`
(`MergeError.inconsistent`).  All theorems about results are conditioned on
an `.ok` outcome, so the fuel is never load-bearing.
-/

/-- Decidable equality for `Except`, so concrete runs of the embedded code
can be checked by `decide`. -/
instance {e a : Type} [DecidableEq e] [DecidableEq a] : DecidableEq (Except e a) :=
  fun x y =>
    match x, y with
    | .ok u, .ok v =>
      if h : u = v then .isTrue (by rw [h]) else .isFalse (fun hh => h (Except.ok.inj hh))
    | .error u, .error v =>
      if h : u = v then .isTrue (by rw [h]) else .isFalse (fun hh => h (Except.error.inj hh))
    | .ok _, .error _ => .isFalse (fun hh => Except.noConfusion hh)
    | .error _, .ok _ => .isFalse (fun hh => Except.noConfusion hh)

/-- Error outcomes of the linearizer: exhausted fuel (an artifact of the
embedding), or the source's `RuntimeError("Inconsistent hierarchy")`. -/
inductive MergeError where
  | fuel : MergeError
  | inconsistent : MergeError
deriving DecidableEq, Repr

/-- `headOK seqs c` embeds the inner loop of `_c3_merge`: the candidate `c`
is accepted when it appears in the tail `s2[1:]` of no sequence. -/
def headOK (seqs : List (List Nat)) (c : Nat) : Bool :=
  seqs.all (fun s2 => decide (c ∉ s2.tail))

/-- The outer candidate-selection loop of `_c3_merge`: the first sequence
whose head is accepted by `headOK`. -/
def pickSeq (seqs : List (List Nat)) : Option (List Nat) :=
  seqs.find? (fun s =>
    match s with
    | [] => false
    | c :: _ => headOK seqs c)

/-- The selected merge candidate: the head of the sequence `pickSeq` finds. -/
def selectHead (seqs : List (List Nat)) : Option Nat :=
  (pickSeq seqs).bind List.head?

/-- `del seq[0]` guarded by `seq[0] == candidate`, from `_c3_merge`. -/
def removeHead (c : Nat) (s : List Nat) : List Nat :=
  match s with
  | [] => []
  | x :: t => if x = c then t else x :: t

/-- `_c3_merge` from `src/src/__init__.py`: purge empty sequences; if none
remain, return the result; otherwise pick the first head that appears in no
tail, append it, delete it from every sequence whose head it is, and loop.
If no head qualifies, raise `RuntimeError("Inconsistent hierarchy")`. -/
def c3_merge : Nat → List (List Nat) → Except MergeError (List Nat)
  | 0, _ => .error .fuel
  | fuel + 1, seqs =>
    let P := seqs.filter (fun s => !s.isEmpty)
    if P.isEmpty then .ok []
    else
      match selectHead P with
      | none => .error .inconsistent
      | some c =>
        match c3_merge fuel (P.map (removeHead c)) with
        | .ok r => .ok (c :: r)
        | .error e => .error e

/-- Static class data the dispatch core reads off Python class objects. -/
structure ClassTable where
  /-- `cls.__bases__` — the direct bases, in declaration order. -/
  bases : Nat → List Nat
  /-- `hasattr(cls, "__abstractmethods__")`. -/
  hasAbs : Nat → Bool
  /-- `issubclass`, including virtual (ABC-registered) subclassing. -/
  issub : Nat → Nat → Bool
  /-- `cls.__subclasses__()` — direct (real) subclasses. -/
  subs : Nat → List Nat

/-- Error-propagating map over a list, used for the comprehensions
`[_c3_mro(base, abcs=abcs) for base in ...]` in `_c3_mro`. -/
def mapMExcept (f : Nat → Except MergeError (List Nat)) :
    List Nat → Except MergeError (List (List Nat))
  | [] => .ok []
  | a :: l =>
    match f a with
    | .error e => .error e
    | .ok b =>
      match mapMExcept f l with
      | .error e => .error e
      | .ok bs => .ok (b :: bs)

/-- The boundary computation at the top of `_c3_mro`: one past the index of
the last direct base that has `__abstractmethods__`, or `0` if none has. -/
def boundary (ct : ClassTable) (bs : List Nat) : Nat :=
  match bs.reverse.findIdx? ct.hasAbs with
  | some i => bs.length - i
  | none => 0

/-- The abstract-base selection test of `_c3_mro`: `issubclass(cls, base)
and not any(issubclass(b, base) for b in cls.__bases__)`. -/
def abstractFilter (ct : ClassTable) (cls : Nat) (a : Nat) : Bool :=
  ct.issub cls a && (ct.bases cls).all (fun b => !ct.issub b a)

/-- One unfolding of `_c3_mro`, parameterized by the recursive call `rec`.
Partitions `cls.__bases__` at the boundary into explicit and other bases,
selects the abstract bases introduced at `cls` from `abcs`, removes them
from `abcs` for the recursive calls, recursively linearizes all three base
groups, and merges `[[cls]]`, the recursive linearizations, and the three
base lists. -/
def c3mroBody (ct : ClassTable)
    (rec : Nat → List Nat → Except MergeError (List Nat))
    (fuelM : Nat) (cls : Nat) (abcs : List Nat) :
    Except MergeError (List Nat) :=
  let bs := ct.bases cls
  let bd := boundary ct bs
  let exB := bs.take bd
  let otB := bs.drop bd
  let abB := abcs.filter (abstractFilter ct cls)
  let abcs2 := abcs.filter (fun a => !abstractFilter ct cls a)
  match mapMExcept (fun b => rec b abcs2) exB with
  | .error e => .error e
  | .ok em =>
    match mapMExcept (fun b => rec b abcs2) abB with
    | .error e => .error e
    | .ok am =>
      match mapMExcept (fun b => rec b abcs2) otB with
      | .error e => .error e
      | .ok om =>
        c3_merge fuelM ([[cls]] ++ em ++ am ++ om ++ [exB, abB, otB])

/-- `_c3_mro` from `src/src/__init__.py`, fuelled.  Written with a function
codomain so the recursion is structural on the fuel and results compute by
kernel reduction. -/
def c3mro (ct : ClassTable) : Nat → Nat → List Nat → Except MergeError (List Nat)
  | 0 => fun _ _ => .error .fuel
  | fuel + 1 => fun cls abcs => c3mroBody ct (c3mro ct fuel) fuel cls abcs

/-- The `is_related` filter of `_compose_mro`: the key is not already in
`cls.__mro__` and `issubclass(cls, typ)` holds.  (The source also checks
`hasattr(typ, "__mro__")` and that `typ` is not a `GenericAlias`; both hold
for every plain class, and all our registry keys are plain classes.) -/
def isRelated (ct : ClassTable) (clsMro : List Nat) (cls typ : Nat) : Bool :=
  decide (typ ∉ clsMro) && ct.issub cls typ

/-- The `is_strict_base` removal of `_compose_mro`: drop every key that
occurs in the `__mro__` of a different surviving key.  `paired` carries each
key with its `__mro__`. -/
def stripStrictBases (paired : List (Nat × List Nat)) : List (Nat × List Nat) :=
  paired.filter (fun p =>
    !(paired.any (fun q => decide (p.1 ≠ q.1) && decide (p.1 ∈ q.2))))

/-- Stable insertion of a list into a length-descending sorted list of
lists: among equal lengths the incumbent stays first.  Together with
`sortByLenDesc` this embeds Python's stable `found.sort(key=len,
reverse=True)`. -/
def insertLenDesc (x : List Nat) : List (List Nat) → List (List Nat)
  | [] => [x]
  | y :: t => if x.length ≤ y.length then y :: insertLenDesc x t else x :: y :: t

/-- Stable sort by descending length (Python's `sort(key=len, reverse=True)`
is stable: ties keep their original order). -/
def sortByLenDesc (l : List (List Nat)) : List (List Nat) :=
  l.foldl (fun acc x => insertLenDesc x acc) []

/-- `for subcls in sub: if subcls not in mro: mro.append(subcls)`. -/
def appendNoDup (acc : List Nat) (sub : List Nat) : List Nat :=
  sub.foldl (fun a x => if x ∈ a then a else a ++ [x]) acc

/-- One iteration of the ABC-ordering stabilization loop of `_compose_mro`
(the `for typ in types:` body): collect the `__mro__`s (restricted to the
type set) of the useful subclasses of `typ`, and either append `typ` itself
or the sorted subclass chains. -/
def stabOne (ct : ClassTable) (fuel : Nat) (clsMro : List Nat) (cls : Nat)
    (typeSet : List Nat) (acc : List Nat) (typ : Nat) :
    Except MergeError (List Nat) :=
  let qualifying := (ct.subs typ).filter
    (fun sub => decide (sub ∉ clsMro) && ct.issub cls sub)
  match mapMExcept (fun sub => c3mro ct fuel sub []) qualifying with
  | .error e => .error e
  | .ok subMros =>
    let found := subMros.map (fun m => m.filter (fun s => decide (s ∈ typeSet)))
    if found.isEmpty then .ok (acc ++ [typ])
    else .ok ((sortByLenDesc found).foldl appendNoDup acc)

/-- The whole stabilization loop of `_compose_mro`, threading the `mro`
accumulator. -/
def stabList (ct : ClassTable) (fuel : Nat) (clsMro : List Nat) (cls : Nat)
    (typeSet : List Nat) : List Nat → List Nat → Except MergeError (List Nat)
  | [], acc => .ok acc
  | typ :: rest, acc =>
    match stabOne ct fuel clsMro cls typeSet acc typ with
    | .error e => .error e
    | .ok acc2 => stabList ct fuel clsMro cls typeSet rest acc2

/-- `_compose_mro` from `src/src/__init__.py`: filter the registry keys to
related ABCs not already in `cls.__mro__`, drop strict bases of other keys,
stabilize the ordering through implemented subclasses, and linearize `cls`
against the result. -/
def composeMro (ct : ClassTable) (fuel : Nat) (cls : Nat) (keys : List Nat) :
    Except MergeError (List Nat) :=
  match c3mro ct fuel cls [] with
  | .error e => .error e
  | .ok clsMro =>
    let types1 := keys.filter (isRelated ct clsMro cls)
    match mapMExcept (fun t => c3mro ct fuel t []) types1 with
    | .error e => .error e
    | .ok mros1 =>
      let types2 := (stripStrictBases (types1.zip mros1)).map Prod.fst
      match stabList ct fuel clsMro cls types2 types2 [] with
      | .error e => .error e
      | .ok mroAbcs => c3mro ct fuel cls mroAbcs

/-- Error outcomes of the single-argument resolver: the linearizer errors,
plus `RuntimeError("Ambiguous dispatch: A or B")` naming both candidates. -/
inductive SDErr where
  | fuel : SDErr
  | inconsistent : SDErr
  | ambiguous : Nat → Nat → SDErr
deriving DecidableEq, Repr

/-- Lift a linearizer error into the resolver's error type. -/
def liftME : MergeError → SDErr
  | .fuel => .fuel
  | .inconsistent => .inconsistent

/-- A single-dispatch registry: insertion-ordered association list from a
class (dispatch key) to an implementation identifier. -/
abbrev SDRegistry := List (Nat × Nat)

/-- Dictionary lookup `registry[k]` / `registry.get(k)` (keys are unique in
a Python dict; we model lookup as the first binding). -/
def regGet (reg : SDRegistry) (k : Nat) : Option Nat :=
  (reg.find? (fun p => decide (p.1 = k))).map Prod.snd

/-- The keys of the registry, in insertion order. -/
def regKeys (reg : SDRegistry) : List Nat := reg.map Prod.fst

/-- The MRO walk of `_find_impl` in `src/src/__init__.py`: remember the
first registered key as `match`; at the very next element `t`, if `t` is
registered, neither `t` nor `match` is in `cls.__mro__`, and `match` is not
a subclass of `t`, raise the ambiguous-dispatch error; otherwise stop.
Returns `registry.get(match)` (which is `None` when nothing matched). -/
def walkSD (ct : ClassTable) (reg : SDRegistry) (clsMro : List Nat) :
    List Nat → Option Nat → Except SDErr (Option Nat)
  | [], m => .ok (m.bind (regGet reg))
  | t :: _, some m =>
    if (regGet reg t).isSome && decide (t ∉ clsMro) && decide (m ∉ clsMro)
        && !ct.issub m t
    then .error (.ambiguous m t)
    else .ok (regGet reg m)
  | t :: rest, none =>
    walkSD ct reg clsMro rest (if (regGet reg t).isSome then some t else none)

/-- `_find_impl` from `src/src/__init__.py`: compose the MRO against the
registry keys and walk it. -/
def findImplSD (ct : ClassTable) (fuel : Nat) (reg : SDRegistry) (cls : Nat) :
    Except SDErr (Option Nat) :=
  match composeMro ct fuel cls (regKeys reg) with
  | .error e => .error (liftME e)
  | .ok mro =>
    match c3mro ct fuel cls [] with
    | .error e => .error (liftME e)
    | .ok clsMro => walkSD ct reg clsMro mro none

/-- `dispatch` from `singledispatch` (cache aside): exact registry hit
first, then `_find_impl`. -/
def dispatchSD (ct : ClassTable) (fuel : Nat) (reg : SDRegistry) (cls : Nat) :
    Except SDErr (Option Nat) :=
  match regGet reg cls with
  | some f => .ok (some f)
  | none => findImplSD ct fuel reg cls

/-- The dispatch cache: concrete runtime class to previously resolved
implementation (possibly `none`, mirroring a cached `None`). -/
abbrev SDCache := List (Nat × Option Nat)

/-- `dispatch` with its cache, from `singledispatch`: return the cached
implementation on a hit; otherwise resolve (exact hit, then `_find_impl`)
and store the result.  Errors propagate without caching, as in the source
(the exception aborts before `dispatch_cache[cls] = impl`). -/
def dispatchCached (ct : ClassTable) (fuel : Nat) (reg : SDRegistry)
    (cache : SDCache) (cls : Nat) : Except SDErr (Option Nat × SDCache) :=
  match (cache.find? (fun p => decide (p.1 = cls))).map Prod.snd with
  | some v => .ok (v, cache)
  | none =>
    match dispatchSD ct fuel reg cls with
    | .error e => .error e
    | .ok v => .ok (v, (cls, v) :: cache)

/-- A cache is valid for a registry when every entry stores exactly what
resolution computes for its key under the current registry.  This is the
state the source maintains: entries are written only by `dispatch` itself,
and `register` clears the cache on every registry change. -/
def CacheValid (ct : ClassTable) (fuel : Nat) (reg : SDRegistry)
    (cache : SDCache) : Prop :=
  ∀ p ∈ cache, dispatchSD ct fuel reg p.1 = .ok p.2

/-! ## Multi-argument dispatch (`src/multiarg_dispatch/main.py` and
`src/src/multidispatch.py`) -/

/-- A per-parameter type specifier: a single class, or the members of a
union annotation (`int | str`).  In `main.py` a union is kept as the union
object; in `multidispatch.py` it is expanded to a tuple of classes at
registration.  Both match an argument class by `issubclass` against any
member, so one embedding serves both. -/
inductive Spec where
  | single : Nat → Spec
  | alts : List Nat → Spec
deriving DecidableEq, Repr

/-- A multi-arg registry key: the `object` default sentinel, or the tuple of
type specifiers the implementation was registered under. -/
inductive RKey where
  | obj : RKey
  | types : List Spec → RKey
deriving DecidableEq, Repr

/-- A multi-arg registry: insertion-ordered association list. -/
abbrev MARegistry := List (RKey × Nat)

/-- Position check of `_find_impl` in `main.py`: for a union specifier,
`any(issubclass(arg, r) for r in get_args(reg))`; for a plain class,
`issubclass(arg, reg)`.  (For a `types.UnionType` specifier the source
additionally evaluates `issubclass(arg, reg)` on the union object itself,
which has exactly the any-member semantics, so the two checks coincide.) -/
def specOK (ct : ClassTable) (arg : Nat) : Spec → Bool
  | .single t => ct.issub arg t
  | .alts ts => ts.any (fun r => ct.issub arg r)

/-- Entry check of `_find_impl` in `main.py`: every position of
`zip(arg_types, registered_types)` must be satisfied.  `zip` truncates at
the shorter tuple — the source has no arity guard. -/
def entryMatches (ct : ClassTable) (argTypes : List Nat) (specs : List Spec) : Bool :=
  (argTypes.zip specs).all (fun p => specOK ct p.1 p.2)

/-- `registry.get(object)` — the default implementation. -/
def objDefault (reg : MARegistry) : Option Nat :=
  (reg.find? (fun p => decide (p.1 = RKey.obj))).map Prod.snd

/-- The per-entry test of the registry scan in `main.py`'s `_find_impl`:
skip the `object` sentinel, accept the first matching specifier tuple. -/
def maMatchPred (ct : ClassTable) (argTypes : List Nat) (p : RKey × Nat) : Bool :=
  match p.1 with
  | .obj => false
  | .types specs => entryMatches ct argTypes specs

/-- `_find_impl` from `src/multiarg_dispatch/main.py`: scan the registry in
insertion order, skip the `object` sentinel, return the first entry whose
specifier tuple matches (zip-truncated, no arity guard), else fall back to
the default. -/
def findImplMA (ct : ClassTable) (argTypes : List Nat) (reg : MARegistry) :
    Option Nat :=
  match reg.find? (maMatchPred ct argTypes) with
  | some p => some p.2
  | none => objDefault reg

/-- The per-entry test of `_find_impl` in `src/src/multidispatch.py`: the
arity guard `len(arg_types) != len(registered_types)` disqualifies the
entry, then every position must satisfy `issubclass(arg, reg)` (where `reg`
may be a tuple of classes, i.e. any-member semantics). -/
def mdMatchPred (ct : ClassTable) (argTypes : List Nat) (p : RKey × Nat) : Bool :=
  match p.1 with
  | .obj => false
  | .types specs =>
    decide (argTypes.length = specs.length) && entryMatches ct argTypes specs

/-- `_find_impl` from `src/src/multidispatch.py`: like `findImplMA` but
with the arity guard. -/
def findImplMD (ct : ClassTable) (argTypes : List Nat) (reg : MARegistry) :
    Option Nat :=
  match reg.find? (mdMatchPred ct argTypes) with
  | some p => some p.2
  | none => objDefault reg

/-- Dictionary lookup in a multi-arg registry. -/
def regGetMA (reg : MARegistry) (k : RKey) : Option Nat :=
  (reg.find? (fun p => decide (p.1 = k))).map Prod.snd

/-- The key a call presents to `registry[cls]`: the tuple of the runtime
classes of the arguments.  It can only ever equal a registered key whose
specifiers are all plain classes. -/
def exactKey (argTypes : List Nat) : RKey :=
  .types (argTypes.map Spec.single)

/-- `dispatch` from `main.py`: `registry[cls]` exact hit first, then
`_find_impl`. -/
def dispatchMA (ct : ClassTable) (reg : MARegistry) (argTypes : List Nat) :
    Option Nat :=
  match regGetMA reg (exactKey argTypes) with
  | some f => some f
  | none => findImplMA ct argTypes reg

/-- `dispatch` from `multidispatch.py`: same exact-first shape over the
arity-guarded `_find_impl`. -/
def dispatchMD (ct : ClassTable) (reg : MARegistry) (argTypes : List Nat) :
    Option Nat :=
  match regGetMA reg (exactKey argTypes) with
  | some f => some f
  | none => findImplMD ct argTypes reg

/-- A runtime argument value: all the wrappers read of it is its class. -/
structure Obj where
  cls : Nat
deriving DecidableEq, Repr

/-- The spec's `EmptyCallError` (a `TypeError` in the source). -/
inductive CallErr where
  | emptyCall : CallErr
deriving DecidableEq, Repr

/-- The dispatch key built by `wrapper` in `main.py`: classes of the
positional arguments, then classes of the keyword values in the order the
caller supplied the keywords (`kw.values()` preserves that order). -/
def dispatchKeyMA (args : List Obj) (kw : List (String × Obj)) : List Nat :=
  args.map Obj.cls ++ kw.map (fun p => p.2.cls)

/-- `wrapper` from `main.py`: raise when there is no positional and no
keyword argument; otherwise dispatch on the key and call the chosen
implementation.  We return the chosen implementation together with the key
it was chosen for. -/
def wrapperMA (ct : ClassTable) (reg : MARegistry) (args : List Obj)
    (kw : List (String × Obj)) : Except CallErr (Option Nat × List Nat) :=
  if args.isEmpty && kw.isEmpty then .error .emptyCall
  else .ok (dispatchMA ct reg (dispatchKeyMA args kw), dispatchKeyMA args kw)

/-- `wrapper` from `multidispatch.py`: raise whenever there is no positional
argument — keyword arguments alone do not avert the error. -/
def wrapperMD (ct : ClassTable) (reg : MARegistry) (args : List Obj)
    (kw : List (String × Obj)) : Except CallErr (Option Nat × List Nat) :=
  if args.isEmpty then .error .emptyCall
  else .ok (dispatchMD ct reg (dispatchKeyMA args kw), dispatchKeyMA args kw)

/-! ## Concrete hierarchies for witnesses and counterexamples -/

/-- A small concrete hierarchy: `0 = object`, `1 = Animal`, `2 = Dog`
(base `Animal`), `3`, `4` unrelated direct subclasses of `object`. -/
def exCT : ClassTable where
  bases c :=
    if c = 1 then [0] else if c = 2 then [1]
    else if c = 3 then [0] else if c = 4 then [0] else []
  hasAbs _ := false
  issub x y :=
    decide (x = y) ||
      decide ((x, y) ∈ ([(1, 0), (2, 1), (2, 0), (3, 0), (4, 0)] : List (Nat × Nat)))
  subs c := if c = 0 then [1, 3, 4] else if c = 1 then [2] else []

/-- Hierarchy for the ambiguity claims: `0 = object`; `1 = C` an ABC;
`2 = A` an ABC deriving `C`; `3 = B` an ABC unrelated to `A`;
`4 = cls`, a plain class virtually registered against both `A` and `B`
(hence also a virtual subclass of `C`). -/
def exCT2 : ClassTable where
  bases c :=
    if c = 1 then [0] else if c = 2 then [1]
    else if c = 3 then [0] else if c = 4 then [0] else []
  hasAbs c := decide (c = 1) || decide (c = 2) || decide (c = 3)
  issub x y :=
    decide (x = y) ||
      decide ((x, y) ∈
        ([(1, 0), (2, 1), (2, 0), (3, 0), (4, 0), (4, 2), (4, 1), (4, 3)] :
          List (Nat × Nat)))
  subs c := if c = 0 then [1, 3, 4] else if c = 1 then [2] else []

/-- Hierarchy for the adjacent-ambiguity witness: `0 = object`; `1 = A` and
`2 = B` unrelated ABCs; `3 = cls` virtually registered against both. -/
def exCT3 : ClassTable where
  bases c := if c = 1 then [0] else if c = 2 then [0] else if c = 3 then [0] else []
  hasAbs c := decide (c = 1) || decide (c = 2)
  issub x y :=
    decide (x = y) ||
      decide ((x, y) ∈ ([(1, 0), (2, 0), (3, 0), (3, 1), (3, 2)] : List (Nat × Nat)))
  subs c := if c = 0 then [1, 2, 3] else []

/-- Registry with `Animal` (1) registered before `Dog` (2). -/
def regC1 : MARegistry :=
  [(.obj, 400), (.types [.single 1], 401), (.types [.single 2], 402)]

/-- Registry where the second compatible entry is not an exact class tuple. -/
def regC1w : MARegistry :=
  [(.obj, 400), (.types [.single 1], 401), (.types [.alts [1, 3]], 402)]

/-- Registry with a single two-parameter registration. -/
def regC4 : MARegistry := [(.obj, 300), (.types [.single 4, .single 3], 301)]

/-- Registry with a single one-parameter registration. -/
def regC4w : MARegistry := [(.obj, 300), (.types [.single 1], 301)]

/-- Registry distinguishing the two argument orders `(4, 3)` and `(3, 4)`. -/
def regC10 : MARegistry :=
  [(.obj, 200), (.types [.single 4, .single 3], 201),
   (.types [.single 3, .single 4], 202)]

/-- Single-dispatch registry: default plus `Animal` (1). -/
def regC8 : SDRegistry := [(0, 100), (1, 101)]

/-- A warm cache for `regC8`, produced by a previous resolution of `Dog`. -/
def cacheC8 : SDCache := [(2, some 101)]

example : c3mro exCT 8 2 [] = .ok [2, 1, 0] := by decide
example : composeMro exCT2 16 4 [0, 2, 3] = .ok [4, 2, 1, 3, 0] := by decide
example : dispatchSD exCT2 16 [(0, 100), (2, 102), (3, 103)] 4 = .ok (some 102) := by decide
example : dispatchSD exCT3 16 [(0, 100), (1, 101), (2, 102)] 3 = .error (.ambiguous 1 2) := by decide
example : dispatchSD exCT 16 [(0, 100), (1, 101), (3, 103)] 2 = .ok (some 101) := by decide
example : dispatchSD exCT 16 [(0, 100), (1, 101), (3, 103)] 4 = .ok (some 100) := by decide

/-! ## Claim theorems: multi-argument resolver and wrappers -/

/-- The spec's position-satisfaction relation (§4.3), stated from the
spec's words for comparison with the code's matcher: a single-type
specifier is satisfied by subtype-or-equal; an alternative-set specifier by
subtype-or-equal to at least one member. -/
def SpecSat (ct : ClassTable) (a : Nat) : Spec → Prop
  | .single t => a = t ∨ ct.issub a t = true
  | .alts ts => ∃ u ∈ ts, a = u ∨ ct.issub a u = true

/-- The code's position check agrees with the spec's, given that
`issubclass` is reflexive (as it is in Python). -/
theorem specOK_iff_specSat (ct : ClassTable) (hrefl : ∀ x, ct.issub x x = true)
    (a : Nat) (s : Spec) : specOK ct a s = true ↔ SpecSat ct a s := by
  cases s with
  | single t =>
    simp only [specOK, SpecSat]
    constructor
    · exact fun h => Or.inr h
    · rintro (rfl | h)
      · exact hrefl a
      · exact h
  | alts ts =>
    simp only [specOK, SpecSat, List.any_eq_true]
    constructor
    · rintro ⟨u, hu, h⟩
      exact ⟨u, hu, Or.inr h⟩
    · rintro ⟨u, hu, h⟩
      rcases h with rfl | h
      · exact ⟨a, hu, hrefl a⟩
      · exact ⟨u, hu, h⟩

/-- One-step unfolding of the matcher. -/
theorem entryMatches_cons (ct : ClassTable) (a : Nat) (as : List Nat)
    (s : Spec) (ss : List Spec) :
    entryMatches ct (a :: as) (s :: ss) = (specOK ct a s && entryMatches ct as ss) := rfl

/-- C5: in `main.py`'s resolver, for a call of matching arity, an entry
matches exactly when at each position the runtime type satisfies the type
specifier — subtype-or-equal for a single-type specifier, subtype-or-equal
to some member for an alternative-set specifier. -/
theorem c5_entry_match_characterization :
    ∀ (ct : ClassTable), (∀ x, ct.issub x x = true) →
    ∀ (argTypes : List Nat) (specs : List Spec),
      argTypes.length = specs.length →
      (entryMatches ct argTypes specs = true ↔
        List.Forall₂ (SpecSat ct) argTypes specs) := by
  intro ct hrefl argTypes
  induction argTypes with
  | nil =>
    intro specs hlen
    cases specs with
    | nil => simp [entryMatches]
    | cons s ss => simp at hlen
  | cons a as ih =>
    intro specs hlen
    cases specs with
    | nil => simp at hlen
    | cons s ss =>
      rw [entryMatches_cons, Bool.and_eq_true, List.forall₂_cons,
        specOK_iff_specSat ct hrefl,
        ih ss (Nat.succ_injective hlen)]

/-- C5 witness: a concrete matching-arity call checked through the
characterization. -/
theorem c5_witness :
    List.Forall₂ (SpecSat exCT) [2, 3] [Spec.single 1, Spec.alts [4, 3]] :=
  (c5_entry_match_characterization exCT (fun x => by simp [exCT]) [2, 3]
    [Spec.single 1, Spec.alts [4, 3]] (by decide)).mp (by decide)

/-- C4 counterexample: in `main.py`'s `_find_impl` (and `dispatch`), an
entry registered for two parameters is returned for a one-argument call —
`zip` truncates, there is no arity guard, so a length mismatch does *not*
disqualify the entry. -/
theorem c4_counterexample :
    ([4] : List Nat).length ≠ ([Spec.single 4, Spec.single 3]).length ∧
    (RKey.types [Spec.single 4, Spec.single 3], 301) ∈ regC4 ∧
    findImplMA exCT [4] regC4 = some 301 ∧
    dispatchMA exCT regC4 [4] = some 301 := by decide

/-- C4 amended: the arity guard exists only in the `multidispatch.py`
variant of `_find_impl`: there, every non-default result comes from an
entry whose specifier count equals the call's arity. -/
theorem c4_amended_md_arity_guard :
    ∀ (ct : ClassTable) (argTypes : List Nat) (reg : MARegistry) (f : Nat),
      findImplMD ct argTypes reg = some f →
      objDefault reg = some f ∨
        ∃ specs, (RKey.types specs, f) ∈ reg ∧ specs.length = argTypes.length ∧
          entryMatches ct argTypes specs = true := by
  intro ct argTypes reg f h
  unfold findImplMD at h
  cases hf : reg.find? (mdMatchPred ct argTypes) with
  | none =>
    rw [hf] at h
    exact Or.inl h
  | some p =>
    rw [hf] at h
    have hp : p ∈ reg := List.mem_of_find?_eq_some hf
    have hpred : mdMatchPred ct argTypes p = true := List.find?_some hf
    have hf2 : p.2 = f := by injection h
    right
    cases hk : p.1 with
    | obj => simp [mdMatchPred, hk] at hpred
    | types specs =>
      simp only [mdMatchPred, hk, Bool.and_eq_true, decide_eq_true_eq] at hpred
      refine ⟨specs, ?_, hpred.1.symm, hpred.2⟩
      have hpp : p = (RKey.types specs, f) := by
        cases p
        simp only at hk hf2
        rw [hk, hf2]
      rw [← hpp]
      exact hp

/-- C4 witness: the guard theorem applied at a concrete resolved call. -/
theorem c4_amended_witness :
    objDefault regC4w = some 301 ∨
      ∃ specs, (RKey.types specs, 301) ∈ regC4w ∧
        specs.length = ([2] : List Nat).length ∧
        entryMatches exCT [2] specs = true :=
  c4_amended_md_arity_guard exCT [2] regC4w 301 (by decide)

/-- C1 counterexample: `Animal` (1) is registered before `Dog` (2), a call
with a `Dog` is structurally compatible with both, yet `dispatch` returns
the *second* registration: the exact-tuple fast path `registry[cls]` hits
before the registration-order scan, so the first fully matching entry does
not always win. -/
theorem c1_counterexample :
    entryMatches exCT [2] [Spec.single 1] = true ∧
    entryMatches exCT [2] [Spec.single 2] = true ∧
    dispatchMA exCT regC1 [2] = some 402 ∧
    dispatchMA exCT regC1 [2] ≠ some 401 := by decide

/-- C1 amended: when the call's class tuple is not itself a registered key
(the exact-match fast path misses), the first fully matching entry in
registration order wins, regardless of what is registered after it. -/
theorem c1_amended_first_match_unless_exact :
    ∀ (ct : ClassTable) (reg pre rest : MARegistry) (argTypes : List Nat)
      (specs1 : List Spec) (f1 : Nat),
      regGetMA reg (exactKey argTypes) = none →
      reg = pre ++ (RKey.types specs1, f1) :: rest →
      (∀ p ∈ pre, maMatchPred ct argTypes p = false) →
      entryMatches ct argTypes specs1 = true →
      dispatchMA ct reg argTypes = some f1 := by
  intro ct reg pre rest argTypes specs1 f1 hexact hreg hpre hmatch
  have hfind : reg.find? (maMatchPred ct argTypes) = some (RKey.types specs1, f1) := by
    subst hreg
    clear hexact
    induction pre with
    | nil =>
      have : maMatchPred ct argTypes (RKey.types specs1, f1) = true := by
        simp [maMatchPred, hmatch]
      simp [List.find?, this]
    | cons q qs ih =>
      have hq : maMatchPred ct argTypes q = false := hpre q (by simp)
      simp only [List.cons_append, List.find?, hq]
      exact ih (fun p hp => hpre p (by simp [hp]))
  unfold dispatchMA
  rw [hexact]
  unfold findImplMA
  rw [hfind]

/-- C1 witness: with no exact key for the call, the earlier compatible
registration wins over the later one. -/
theorem c1_amended_witness : dispatchMA exCT regC1w [2] = some 401 :=
  c1_amended_first_match_unless_exact exCT regC1w [(RKey.obj, 400)]
    [(RKey.types [Spec.alts [1, 3]], 402)] [2] [Spec.single 1] 401
    (by decide) rfl (by decide) (by decide)

/-- C10: the dispatch key is the classes of the positional arguments
followed by the classes of the keyword values in supplied order; hence the
same values bound to the same parameters can select different
implementations positionally versus by keyword, or with keywords reordered
(`a = Obj 4`, `b = Obj 3` below). -/
theorem c10_dispatch_key_order :
    (∀ (args : List Obj) (kw : List (String × Obj)),
      dispatchKeyMA args kw = args.map Obj.cls ++ kw.map (fun p => p.2.cls)) ∧
    wrapperMA exCT regC10 [Obj.mk 4, Obj.mk 3] [] = .ok (some 201, [4, 3]) ∧
    wrapperMA exCT regC10 [] [("a", Obj.mk 4), ("b", Obj.mk 3)] = .ok (some 201, [4, 3]) ∧
    wrapperMA exCT regC10 [] [("b", Obj.mk 3), ("a", Obj.mk 4)] = .ok (some 202, [3, 4]) :=
  ⟨fun _ _ => rfl, by decide, by decide, by decide⟩

/-- C9 counterexample: in `multidispatch.py`'s wrapper a call that supplies
one (keyword) argument still fails with the empty-call error, because that
wrapper tests only the positional arguments. -/
theorem c9_counterexample :
    [("x", Obj.mk 3)].length = 1 ∧
    wrapperMD exCT [(RKey.obj, 100)] [] [("x", Obj.mk 3)] = .error .emptyCall := by
  decide

/-- C9 amended: `main.py`'s wrapper raises the empty-call error exactly
when there is no positional and no keyword argument, while
`multidispatch.py`'s wrapper raises it exactly when there is no positional
argument, keywords notwithstanding. -/
theorem c9_amended_empty_call :
    (∀ (ct : ClassTable) (reg : MARegistry) (args : List Obj) (kw : List (String × Obj)),
      wrapperMA ct reg args kw = .error .emptyCall ↔ args = [] ∧ kw = []) ∧
    (∀ (ct : ClassTable) (reg : MARegistry) (args : List Obj) (kw : List (String × Obj)),
      wrapperMD ct reg args kw = .error .emptyCall ↔ args = []) := by
  constructor
  · intro ct reg args kw
    cases args <;> cases kw <;> simp [wrapperMA]
  · intro ct reg args kw
    cases args <;> simp [wrapperMD]

/-- C8: with a valid cache (every entry stores what resolution computes
under the current registry — the state the source maintains, since
`register` clears the cache on every change), the result of dispatch is the
same warm or cold, dispatching returns exactly the uncached resolution, and
the cache stays valid. -/
theorem c8_cache_transparency :
    ∀ (ct : ClassTable) (fuel : Nat) (reg : SDRegistry) (cache : SDCache) (cls : Nat),
      CacheValid ct fuel reg cache →
      ((dispatchCached ct fuel reg cache cls).map Prod.fst
          = (dispatchCached ct fuel reg [] cls).map Prod.fst) ∧
      (∀ v cache2, dispatchCached ct fuel reg cache cls = .ok (v, cache2) →
        dispatchSD ct fuel reg cls = .ok v ∧ CacheValid ct fuel reg cache2) := by
  intro ct fuel reg cache cls hvalid
  cases hfind : cache.find? (fun p => decide (p.1 = cls)) with
  | some p =>
    have hp : p ∈ cache := List.mem_of_find?_eq_some hfind
    have hkey : p.1 = cls := by
      have h2 := List.find?_some hfind
      simpa using h2
    have hres : dispatchSD ct fuel reg cls = .ok p.2 := by
      have h3 := hvalid p hp
      rwa [hkey] at h3
    have hwarm : dispatchCached ct fuel reg cache cls = .ok (p.2, cache) := by
      simp [dispatchCached, hfind]
    have hcold : dispatchCached ct fuel reg [] cls = .ok (p.2, [(cls, p.2)]) := by
      simp [dispatchCached, hres]
    constructor
    · rw [hwarm, hcold]
      rfl
    · intro v cache2 hv
      rw [hwarm] at hv
      simp only [Except.ok.injEq, Prod.mk.injEq] at hv
      obtain ⟨rfl, rfl⟩ := hv
      exact ⟨hres, hvalid⟩
  | none =>
    have hwarm : dispatchCached ct fuel reg cache cls =
        match dispatchSD ct fuel reg cls with
        | .error e => .error e
        | .ok v => .ok (v, (cls, v) :: cache) := by
      simp [dispatchCached, hfind]
    cases hd : dispatchSD ct fuel reg cls with
    | error e =>
      constructor
      · rw [hwarm, hd]
        simp [dispatchCached, hd]
      · intro v cache2 hv
        rw [hwarm, hd] at hv
        exact absurd hv (by simp)
    | ok v0 =>
      constructor
      · rw [hwarm, hd]
        simp [dispatchCached, hd, Except.map]
      · intro v cache2 hv
        rw [hwarm, hd] at hv
        simp only [Except.ok.injEq, Prod.mk.injEq] at hv
        obtain ⟨rfl, rfl⟩ := hv
        refine ⟨rfl, fun p hp => ?_⟩
        rcases List.mem_cons.mp hp with rfl | hp2
        · exact hd
        · exact hvalid p hp2

/-- The concrete warm cache is valid for the concrete registry. -/
theorem regC8_cache_valid : CacheValid exCT 16 regC8 cacheC8 := by
  intro p hp
  simp only [cacheC8, List.mem_singleton] at hp
  subst hp
  decide

/-- C8 witness: warm and cold dispatch agree on the concrete hierarchy. -/
theorem c8_witness :
    (dispatchCached exCT 16 regC8 cacheC8 2).map Prod.fst
      = (dispatchCached exCT 16 regC8 [] 2).map Prod.fst :=
  (c8_cache_transparency exCT 16 regC8 cacheC8 2 regC8_cache_valid).1

/-! ## Claim theorems: single-argument resolver -/

/-- A key absent from the registry's keys looks up to nothing. -/
theorem regGet_none_of_not_mem (reg : SDRegistry) (k : Nat)
    (h : k ∉ regKeys reg) : regGet reg k = none := by
  unfold regGet
  rw [List.find?_eq_none.mpr]
  · rfl
  · intro p hp hpk
    exact h (by
      simp only [decide_eq_true_eq] at hpk
      exact hpk ▸ List.mem_map_of_mem Prod.fst hp)

/-- A successful lookup means the key is registered. -/
theorem mem_keys_of_regGet_some (reg : SDRegistry) (k : Nat) (f : Nat)
    (h : regGet reg k = some f) : k ∈ regKeys reg := by
  unfold regGet at h
  cases hf : reg.find? (fun p => decide (p.1 = k)) with
  | none => rw [hf] at h; exact absurd h (by simp)
  | some p =>
    have hp : p ∈ reg := List.mem_of_find?_eq_some hf
    have hpk : p.1 = k := by
      have h2 := List.find?_some hf
      simpa using h2
    exact hpk ▸ List.mem_map_of_mem Prod.fst hp

/-- The MRO walk of `_find_impl` skips a prefix containing no registered
key without changing state. -/
theorem walkSD_skip (ct : ClassTable) (reg : SDRegistry) (clsMro : List Nat)
    (l1 rest : List Nat) (h : ∀ k ∈ l1, regGet reg k = none) :
    walkSD ct reg clsMro (l1 ++ rest) none = walkSD ct reg clsMro rest none := by
  induction l1 with
  | nil => rfl
  | cons k l1 ih =>
    have hk : regGet reg k = none := h k (by simp)
    show walkSD ct reg clsMro (l1 ++ rest)
        (if (regGet reg k).isSome then some k else none)
      = walkSD ct reg clsMro rest none
    rw [hk]
    exact ih (fun k2 hk2 => h k2 (by simp [hk2]))

/-- When every registry key related to `cls` already lies in `cls.__mro__`,
`_compose_mro` degenerates to the plain C3 linearization of `cls`. -/
theorem composeMro_no_abcs (ct : ClassTable) (fuel : Nat) (cls : Nat)
    (keys : List Nat) (clsMro : List Nat)
    (h1 : c3mro ct fuel cls [] = .ok clsMro)
    (h2 : keys.filter (isRelated ct clsMro cls) = []) :
    composeMro ct fuel cls keys = .ok clsMro := by
  unfold composeMro
  rw [h1]
  show (match mapMExcept (fun t => c3mro ct fuel t [])
      (keys.filter (isRelated ct clsMro cls)) with
    | Except.error e => Except.error e
    | Except.ok mros1 =>
      match stabList ct fuel clsMro cls
          ((stripStrictBases ((keys.filter (isRelated ct clsMro cls)).zip mros1)).map
            Prod.fst)
          ((stripStrictBases ((keys.filter (isRelated ct clsMro cls)).zip mros1)).map
            Prod.fst) [] with
      | Except.error e => Except.error e
      | Except.ok mroAbcs => c3mro ct fuel cls mroAbcs) = Except.ok clsMro
  rw [h2]
  show c3mro ct fuel cls [] = .ok clsMro
  exact h1

/-- C3: (i) a call with an instance of a registered class `T` resolves to
`T`'s implementation; (ii) a call with an instance of a subtype of `T`
within the concrete ancestor chain, with no more specific registration (no
registered key earlier in the MRO), also resolves to `T`'s implementation;
(iii) when the runtime type matches no registered key other than the
`object` default (index `0`), the default implementation is returned.
Hypotheses relate `issubclass` and the computed linearization exactly as in
every real Python hierarchy: members of `cls.__mro__` are superclasses of
`cls`, and keys applicable to `cls` lie in its concrete MRO (parts (ii) and
(iii) concern concrete-chain dispatch; abstract candidates are the subject
of the ambiguity claim). -/
theorem c3_registration_subtype_and_default :
    ∀ (ct : ClassTable) (fuel : Nat) (reg : SDRegistry),
      (∀ T fT, regGet reg T = some fT → dispatchSD ct fuel reg T = .ok (some fT)) ∧
      (∀ cls clsMro l1 T l2 fT,
        regGet reg cls = none →
        c3mro ct fuel cls [] = .ok clsMro →
        (∀ k ∈ regKeys reg, ct.issub cls k = true → k ∈ clsMro) →
        clsMro = l1 ++ T :: l2 →
        (∀ k ∈ l1, regGet reg k = none) →
        regGet reg T = some fT →
        dispatchSD ct fuel reg cls = .ok (some fT)) ∧
      (∀ cls clsMro l1 d,
        regGet reg cls = none →
        c3mro ct fuel cls [] = .ok clsMro →
        clsMro = l1 ++ [0] →
        0 ∉ l1 →
        (∀ k ∈ clsMro, ct.issub cls k = true) →
        (∀ k ∈ regKeys reg, k ≠ 0 → ct.issub cls k = false) →
        regGet reg 0 = some d →
        dispatchSD ct fuel reg cls = .ok (some d)) := by
  intro ct fuel reg
  have filterEmpty : ∀ cls clsMro,
      (∀ k ∈ regKeys reg, ct.issub cls k = true → k ∈ clsMro) →
      (regKeys reg).filter (isRelated ct clsMro cls) = [] := by
    intro cls clsMro happl
    rw [List.filter_eq_nil_iff]
    intro k hk
    unfold isRelated
    cases hsub : ct.issub cls k with
    | false => simp
    | true =>
      have := happl k hk hsub
      simp [this]
  have mainWalk : ∀ cls clsMro l1 T l2 fT,
      regGet reg cls = none →
      c3mro ct fuel cls [] = .ok clsMro →
      (∀ k ∈ regKeys reg, ct.issub cls k = true → k ∈ clsMro) →
      clsMro = l1 ++ T :: l2 →
      (∀ k ∈ l1, regGet reg k = none) →
      regGet reg T = some fT →
      dispatchSD ct fuel reg cls = .ok (some fT) := by
    intro cls clsMro l1 T l2 fT hmiss hlin happl hdecomp hl1 hT
    subst hdecomp
    have hcomp : composeMro ct fuel cls (regKeys reg) = .ok (l1 ++ T :: l2) :=
      composeMro_no_abcs ct fuel cls (regKeys reg) (l1 ++ T :: l2) hlin
        (filterEmpty cls (l1 ++ T :: l2) happl)
    unfold dispatchSD
    rw [hmiss]
    show findImplSD ct fuel reg cls = .ok (some fT)
    unfold findImplSD
    rw [hcomp, hlin]
    show walkSD ct reg (l1 ++ T :: l2) (l1 ++ T :: l2) none = .ok (some fT)
    rw [walkSD_skip ct reg (l1 ++ T :: l2) l1 (T :: l2) hl1]
    show walkSD ct reg (l1 ++ T :: l2) l2
        (if (regGet reg T).isSome then some T else none) = .ok (some fT)
    rw [hT]
    show walkSD ct reg (l1 ++ T :: l2) l2 (some T) = .ok (some fT)
    cases l2 with
    | nil =>
      show Except.ok ((some T).bind (regGet reg)) = .ok (some fT)
      simp [hT]
    | cons t rest =>
      have htmem : t ∈ l1 ++ T :: t :: rest := by simp
      show (if (regGet reg t).isSome && decide (t ∉ l1 ++ T :: t :: rest)
            && decide (T ∉ l1 ++ T :: t :: rest) && !ct.issub T t
          then Except.error (SDErr.ambiguous T t)
          else Except.ok (regGet reg T)) = Except.ok (some fT)
      have hdec : decide (t ∉ l1 ++ T :: t :: rest) = false := by simp
      simp [hdec, hT]
  refine ⟨?_, mainWalk, ?_⟩
  · intro T fT hT
    unfold dispatchSD
    rw [hT]
  · intro cls clsMro l1 d hmiss hlin hdecomp h0 hmro hnone h0reg
    have happl : ∀ k ∈ regKeys reg, ct.issub cls k = true → k ∈ clsMro := by
      intro k hk hsub
      by_cases hk0 : k = 0
      · subst hk0; simp [hdecomp]
      · rw [hnone k hk hk0] at hsub; exact absurd hsub (by simp)
    have hl1 : ∀ k ∈ l1, regGet reg k = none := by
      intro k hk
      cases hget : regGet reg k with
      | none => rfl
      | some f =>
        have hkk : k ∈ regKeys reg := mem_keys_of_regGet_some reg k f hget
        have hk0 : k ≠ 0 := fun h => h0 (h ▸ hk)
        have hsub : ct.issub cls k = true := hmro k (by simp [hdecomp, hk])
        rw [hnone k hkk hk0] at hsub
        exact absurd hsub (by simp)
    exact mainWalk cls clsMro l1 0 [] d hmiss hlin happl hdecomp hl1 h0reg

/-- Registry for the C3 witness: default, `Animal` (1), and an unrelated
class `3`. -/
def regC3 : SDRegistry := [(0, 100), (1, 101), (3, 103)]

/-- C3 witness: exact hit on `Animal`, subtype fallback from `Dog`, and
default fallback from the unrelated class `4`. -/
theorem c3_witness :
    dispatchSD exCT 16 regC3 1 = .ok (some 101) ∧
    dispatchSD exCT 16 regC3 2 = .ok (some 101) ∧
    dispatchSD exCT 16 regC3 4 = .ok (some 100) :=
  ⟨(c3_registration_subtype_and_default exCT 16 regC3).1 1 101 (by decide),
   (c3_registration_subtype_and_default exCT 16 regC3).2.1 2 [2, 1, 0] [2] 1 [0] 101
     (by decide) (by decide) (by decide) (by decide) (by decide) (by decide),
   (c3_registration_subtype_and_default exCT 16 regC3).2.2 4 [4, 0] [4] 100
     (by decide) (by decide) (by decide) (by decide) (by decide) (by decide) (by decide)⟩

/-- Registry for the C2 counterexample: default, `A` (2), `B` (3). -/
def regC2 : SDRegistry := [(0, 100), (2, 102), (3, 103)]

/-- Registry for the C2 witness: default, `A` (1), `B` (2) of `exCT3`. -/
def regC2w : SDRegistry := [(0, 100), (1, 101), (2, 102)]

/-- C2 counterexample: in `exCT2`, the registered abstract types `A = 2`
and `B = 3` both apply to `cls = 4`, neither is in `cls`'s own concrete
MRO `[4, 0]`, `cls` has no exact registration, and neither is a subclass of
the other — yet resolution silently returns `A`'s implementation instead of
raising the ambiguity error, because `A`'s unregistered abstract base
`C = 1` sits between `A` and `B` in the composed MRO and the code only
examines the element immediately after the first match. -/
theorem c2_counterexample :
    regGet regC2 4 = none ∧
    (regGet regC2 2).isSome = true ∧ (regGet regC2 3).isSome = true ∧
    exCT2.issub 4 2 = true ∧ exCT2.issub 4 3 = true ∧
    exCT2.issub 2 3 = false ∧ exCT2.issub 3 2 = false ∧
    c3mro exCT2 16 4 [] = .ok [4, 0] ∧ 2 ∉ [4, 0] ∧ 3 ∉ [4, 0] ∧
    composeMro exCT2 16 4 (regKeys regC2) = .ok [4, 2, 1, 3, 0] ∧
    dispatchSD exCT2 16 regC2 4 = .ok (some 102) := by decide

/-- C2 amended: the ambiguity error is raised exactly in the adjacent
situation — when the second registered key is the element immediately
following the first match in the composed MRO (and the unrelatedness and
no-subclass conditions hold).  If an unregistered type separates the two
candidates, the first match is returned silently (see the
counterexample). -/
theorem c2_amended_adjacent_ambiguity :
    ∀ (ct : ClassTable) (fuel : Nat) (reg : SDRegistry) (cls : Nat)
      (mro clsMro l1 l2 : List Nat) (A B : Nat),
      regGet reg cls = none →
      composeMro ct fuel cls (regKeys reg) = .ok mro →
      c3mro ct fuel cls [] = .ok clsMro →
      mro = l1 ++ A :: B :: l2 →
      (∀ k ∈ l1, regGet reg k = none) →
      (regGet reg A).isSome = true →
      (regGet reg B).isSome = true →
      A ∉ clsMro → B ∉ clsMro →
      ct.issub A B = false →
      dispatchSD ct fuel reg cls = .error (.ambiguous A B) := by
  intro ct fuel reg cls mro clsMro l1 l2 A B hmiss hcomp hlin hdecomp hl1 hA hB hAm hBm hsub
  subst hdecomp
  unfold dispatchSD
  rw [hmiss]
  show findImplSD ct fuel reg cls = Except.error (SDErr.ambiguous A B)
  unfold findImplSD
  rw [hcomp, hlin]
  show walkSD ct reg clsMro (l1 ++ A :: B :: l2) none
    = Except.error (SDErr.ambiguous A B)
  rw [walkSD_skip ct reg clsMro l1 (A :: B :: l2) hl1]
  show walkSD ct reg clsMro (B :: l2)
      (if (regGet reg A).isSome then some A else none)
    = Except.error (SDErr.ambiguous A B)
  rw [hA]
  show walkSD ct reg clsMro (B :: l2) (some A) = Except.error (SDErr.ambiguous A B)
  show (if (regGet reg B).isSome && decide (B ∉ clsMro) && decide (A ∉ clsMro)
        && !ct.issub A B
      then Except.error (SDErr.ambiguous A B) else Except.ok (regGet reg A))
    = Except.error (SDErr.ambiguous A B)
  rw [hB, hsub]
  simp [hAm, hBm]

/-- C2 witness: two unrelated ABCs adjacent in the composed MRO do raise
the ambiguity error naming both. -/
theorem c2_amended_witness : dispatchSD exCT3 16 regC2w 3 = .error (.ambiguous 1 2) :=
  c2_amended_adjacent_ambiguity exCT3 16 regC2w 3 [3, 1, 2, 0] [3, 0] [3] [0] 1 2
    (by decide) (by decide) (by decide) (by decide) (by decide) (by decide)
    (by decide) (by decide) (by decide) (by decide)

/-! ## Claim theorems: the C3 merge -/

/-- Helper: under an accepted head, deleting the head occurrences deletes
every occurrence of the candidate. -/
theorem removeHead_eq_filter_of_headOK (P : List (List Nat)) (c : Nat)
    (h : headOK P c = true) :
    P.map (removeHead c) = P.map (List.filter (fun x => !decide (x = c))) := by
  apply List.map_congr_left
  intro s hs
  have hc : c ∉ s.tail := by
    have h2 := List.all_eq_true.mp h s hs
    simpa using h2
  cases s with
  | nil => rfl
  | cons x t =>
    simp only [List.tail_cons] at hc
    by_cases hx : x = c
    · subst hx
      rw [show removeHead x (x :: t) = t by simp [removeHead]]
      rw [List.filter_cons_of_neg (by simp)]
      rw [List.filter_eq_self.mpr]
      intro y hy
      simp only [Bool.not_eq_true', decide_eq_false_iff_not]
      intro hyx
      exact hc (hyx ▸ hy)
    · rw [show removeHead c (x :: t) = x :: t by simp [removeHead, hx]]
      rw [List.filter_cons_of_pos (by simp [hx])]
      rw [List.filter_eq_self.mpr]
      intro y hy
      simp only [Bool.not_eq_true', decide_eq_false_iff_not]
      intro hyc
      exact hc (hyc ▸ hy)

/-- C6: the merge step of the linearizer.  (a) With only empty sequences the
merge returns the accumulated result.  (b) When a candidate is selected, it
is prepended and removed from every sequence before the recursive merge —
and, by part (e), removing it from the heads removes it from every sequence
entirely.  (c) When no sequence has an acceptable head, the merge fails with
the inconsistent-hierarchy error.  (d) The selection accepts the head of the
first sequence whose head appears in the tail of no *other* sequence (for
duplicate-free sequences, as all merge inputs are, the code's check against
every tail including the sequence's own is the same test).  (f) `_c3_mro`
merges exactly `[[cls]]`, the three lists of recursive linearizations, and
the three base lists. -/
theorem c6_merge_step_and_failure :
    (∀ (fuel : Nat) (seqs : List (List Nat)),
      seqs.filter (fun s => !s.isEmpty) = [] → c3_merge (fuel + 1) seqs = .ok []) ∧
    (∀ (fuel : Nat) (seqs : List (List Nat)) (c : Nat),
      selectHead (seqs.filter (fun s => !s.isEmpty)) = some c →
      c3_merge (fuel + 1) seqs =
        (c3_merge fuel ((seqs.filter (fun s => !s.isEmpty)).map (removeHead c))).map
          (fun r => c :: r)) ∧
    (∀ (fuel : Nat) (seqs : List (List Nat)),
      seqs.filter (fun s => !s.isEmpty) ≠ [] →
      selectHead (seqs.filter (fun s => !s.isEmpty)) = none →
      c3_merge (fuel + 1) seqs = .error .inconsistent) ∧
    (∀ (P : List (List Nat)) (s : List Nat) (c : Nat) (t : List Nat),
      s ∈ P → s = c :: t → c ∉ t →
      (headOK P c = true ↔ ∀ s2 ∈ P, s2 ≠ s → c ∉ s2.tail)) ∧
    (∀ (P : List (List Nat)) (c : Nat), headOK P c = true →
      P.map (removeHead c) = P.map (List.filter (fun x => !decide (x = c)))) ∧
    (∀ (ct : ClassTable) (fuel : Nat) (cls : Nat) (abcs : List Nat)
      (em am om : List (List Nat)),
      mapMExcept (fun b => c3mro ct fuel b (abcs.filter (fun a => !abstractFilter ct cls a)))
        ((ct.bases cls).take (boundary ct (ct.bases cls))) = .ok em →
      mapMExcept (fun b => c3mro ct fuel b (abcs.filter (fun a => !abstractFilter ct cls a)))
        (abcs.filter (abstractFilter ct cls)) = .ok am →
      mapMExcept (fun b => c3mro ct fuel b (abcs.filter (fun a => !abstractFilter ct cls a)))
        ((ct.bases cls).drop (boundary ct (ct.bases cls))) = .ok om →
      c3mro ct (fuel + 1) cls abcs =
        c3_merge fuel ([[cls]] ++ em ++ am ++ om ++
          [(ct.bases cls).take (boundary ct (ct.bases cls)),
           abcs.filter (abstractFilter ct cls),
           (ct.bases cls).drop (boundary ct (ct.bases cls))])) := by
  refine ⟨?_, ?_, ?_, ?_, removeHead_eq_filter_of_headOK, ?_⟩
  · intro fuel seqs h
    show (if (seqs.filter (fun s => !s.isEmpty)).isEmpty = true
        then (Except.ok [] : Except MergeError (List Nat))
        else
          match selectHead (seqs.filter (fun s => !s.isEmpty)) with
          | none => Except.error MergeError.inconsistent
          | some c2 =>
            match c3_merge fuel ((seqs.filter (fun s => !s.isEmpty)).map (removeHead c2)) with
            | Except.ok r => Except.ok (c2 :: r)
            | Except.error e => Except.error e) = Except.ok []
    rw [h]
    rfl
  · intro fuel seqs c h
    have hne : (seqs.filter (fun s => !s.isEmpty)).isEmpty = false := by
      cases hP : seqs.filter (fun s => !s.isEmpty) with
      | nil => rw [hP] at h; exact absurd h (by simp [selectHead, pickSeq])
      | cons a l => simp
    show (if (seqs.filter (fun s => !s.isEmpty)).isEmpty = true
        then (Except.ok [] : Except MergeError (List Nat))
        else
          match selectHead (seqs.filter (fun s => !s.isEmpty)) with
          | none => Except.error MergeError.inconsistent
          | some c2 =>
            match c3_merge fuel ((seqs.filter (fun s => !s.isEmpty)).map (removeHead c2)) with
            | Except.ok r => Except.ok (c2 :: r)
            | Except.error e => Except.error e) =
      (c3_merge fuel ((seqs.filter (fun s => !s.isEmpty)).map (removeHead c))).map
        (fun r => c :: r)
    rw [hne, h]
    show (match c3_merge fuel ((seqs.filter (fun s => !s.isEmpty)).map (removeHead c)) with
      | Except.ok r => Except.ok (c :: r)
      | Except.error e => Except.error e) =
      (c3_merge fuel ((seqs.filter (fun s => !s.isEmpty)).map (removeHead c))).map
        (fun r => c :: r)
    cases c3_merge fuel ((seqs.filter (fun s => !s.isEmpty)).map (removeHead c)) with
    | ok r => rfl
    | error e => rfl
  · intro fuel seqs hne h
    have hne2 : (seqs.filter (fun s => !s.isEmpty)).isEmpty = false := by
      cases hP : seqs.filter (fun s => !s.isEmpty) with
      | nil => exact absurd hP hne
      | cons a l => simp
    show (if (seqs.filter (fun s => !s.isEmpty)).isEmpty = true
        then (Except.ok [] : Except MergeError (List Nat))
        else
          match selectHead (seqs.filter (fun s => !s.isEmpty)) with
          | none => Except.error MergeError.inconsistent
          | some c2 =>
            match c3_merge fuel ((seqs.filter (fun s => !s.isEmpty)).map (removeHead c2)) with
            | Except.ok r => Except.ok (c2 :: r)
            | Except.error e => Except.error e) = Except.error MergeError.inconsistent
    rw [hne2, h]
    rfl
  · intro P s c t hs hst hct
    constructor
    · intro h s2 hs2 _
      have h2 := List.all_eq_true.mp h s2 hs2
      simpa using h2
    · intro h
      rw [headOK, List.all_eq_true]
      intro s2 hs2
      by_cases hss : s2 = s
      · subst hss
        rw [hst]
        simpa using hct
      · simpa using h s2 hs2 hss
  · intro ct fuel cls abcs em am om h1 h2 h3
    show c3mroBody ct (c3mro ct fuel) fuel cls abcs = _
    show (match mapMExcept
        (fun b => c3mro ct fuel b (abcs.filter (fun a => !abstractFilter ct cls a)))
        ((ct.bases cls).take (boundary ct (ct.bases cls))) with
      | Except.error e => Except.error e
      | Except.ok em2 =>
        match mapMExcept
            (fun b => c3mro ct fuel b (abcs.filter (fun a => !abstractFilter ct cls a)))
            (abcs.filter (abstractFilter ct cls)) with
        | Except.error e => Except.error e
        | Except.ok am2 =>
          match mapMExcept
              (fun b => c3mro ct fuel b (abcs.filter (fun a => !abstractFilter ct cls a)))
              ((ct.bases cls).drop (boundary ct (ct.bases cls))) with
          | Except.error e => Except.error e
          | Except.ok om2 =>
            c3_merge fuel ([[cls]] ++ em2 ++ am2 ++ om2 ++
              [(ct.bases cls).take (boundary ct (ct.bases cls)),
               abcs.filter (abstractFilter ct cls),
               (ct.bases cls).drop (boundary ct (ct.bases cls))])) = _
    rw [h1, h2, h3]

/-- C6 witness: the classic contradictory pair of sequences makes the merge
fail with the inconsistent-hierarchy error. -/
theorem c6_witness : c3_merge 6 [[1, 2], [2, 1]] = .error .inconsistent :=
  c6_merge_step_and_failure.2.2.1 5 [[1, 2], [2, 1]] (by decide) (by decide)

/-! ## Claim C7: consistency of the linearization

The development below proves that a successful `_c3_mro` run never places a
type after one of its own (bases-chain) ancestors.  Hypotheses used
throughout: the class numbering is topological (`b ∈ bases c → b < c`) and
`issubclass` respects it (`issub x y → y ≤ x`) — both hold of every real
Python hierarchy under a topological numbering of its classes. -/

/-- The explicit bases of `cls` (up to the boundary), as `_c3_mro` takes
them. -/
def exB (ct : ClassTable) (cls : Nat) : List Nat :=
  (ct.bases cls).take (boundary ct (ct.bases cls))

/-- The other bases of `cls` (past the boundary). -/
def otB (ct : ClassTable) (cls : Nat) : List Nat :=
  (ct.bases cls).drop (boundary ct (ct.bases cls))

/-- The abstract bases introduced at `cls`, selected from `abcs`. -/
def abB (ct : ClassTable) (cls : Nat) (abcs : List Nat) : List Nat :=
  abcs.filter (abstractFilter ct cls)

/-- The abstract candidates passed down to the recursive linearizations. -/
def abcs2 (ct : ClassTable) (cls : Nat) (abcs : List Nat) : List Nat :=
  abcs.filter (fun a => !abstractFilter ct cls a)

/-- The list of sequences `_c3_mro` hands to `_c3_merge`. -/
def mergeInput (ct : ClassTable) (cls : Nat) (abcs : List Nat)
    (em am om : List (List Nat)) : List (List Nat) :=
  [[cls]] ++ em ++ am ++ om ++ [exB ct cls, abB ct cls abcs, otB ct cls]

/-- Membership in the merge input, spelled out. -/
theorem mem_mergeInput (ct : ClassTable) (cls : Nat) (abcs : List Nat)
    (em am om : List (List Nat)) (s : List Nat) :
    s ∈ mergeInput ct cls abcs em am om ↔
      s = [cls] ∨ s ∈ em ∨ s ∈ am ∨ s ∈ om ∨
      s = exB ct cls ∨ s = abB ct cls abcs ∨ s = otB ct cls := by
  simp [mergeInput, List.mem_append, or_assoc]

/-- The explicit and other bases together are exactly `cls.__bases__`. -/
theorem exB_append_otB (ct : ClassTable) (cls : Nat) :
    exB ct cls ++ otB ct cls = ct.bases cls :=
  List.take_append_drop _ _

/-- Members of the explicit bases are direct bases. -/
theorem mem_bases_of_mem_exB (ct : ClassTable) (cls b : Nat)
    (h : b ∈ exB ct cls) : b ∈ ct.bases cls :=
  List.take_subset _ _ h

/-- Members of the other bases are direct bases. -/
theorem mem_bases_of_mem_otB (ct : ClassTable) (cls b : Nat)
    (h : b ∈ otB ct cls) : b ∈ ct.bases cls :=
  List.drop_subset _ _ h

/-- Members of the selected abstract bases pass the abstract filter. -/
theorem abstractFilter_of_mem_abB (ct : ClassTable) (cls b : Nat)
    (abcs : List Nat) (h : b ∈ abB ct cls abcs) :
    abstractFilter ct cls b = true :=
  (List.mem_filter.mp h).2

/-- A selected abstract base is a superclass of `cls`. -/
theorem issub_of_mem_abB (ct : ClassTable) (cls b : Nat) (abcs : List Nat)
    (h : b ∈ abB ct cls abcs) : ct.issub cls b = true := by
  have h2 := abstractFilter_of_mem_abB ct cls b abcs h
  simp only [abstractFilter, Bool.and_eq_true] at h2
  exact h2.1

/-- A successful `mapMExcept` run produces a successful run of `f` for
every input element. -/
theorem mapMExcept_ok_forall (f : Nat → Except MergeError (List Nat))
    (l : List Nat) (rs : List (List Nat)) (h : mapMExcept f l = .ok rs) :
    ∀ a ∈ l, ∃ r ∈ rs, f a = .ok r := by
  induction l generalizing rs with
  | nil => intro a ha; exact absurd ha (by simp)
  | cons a0 l ih =>
    intro a ha
    unfold mapMExcept at h
    cases hf : f a0 with
    | error e => rw [hf] at h; exact absurd h (by simp)
    | ok b =>
      rw [hf] at h
      cases hrest : mapMExcept f l with
      | error e => rw [hrest] at h; exact absurd h (by simp)
      | ok bs =>
        rw [hrest] at h
        have hrs : rs = b :: bs := by
          have := h
          injection this with h2
          exact h2.symm
        subst hrs
        rcases List.mem_cons.mp ha with rfl | ha2
        · exact ⟨b, by simp, hf⟩
        · obtain ⟨r, hr, hfr⟩ := ih bs hrest a ha2
          exact ⟨r, by simp [hr], hfr⟩

/-- Every result of a successful `mapMExcept` run comes from some input
element. -/
theorem mapMExcept_ok_mem (f : Nat → Except MergeError (List Nat))
    (l : List Nat) (rs : List (List Nat)) (h : mapMExcept f l = .ok rs) :
    ∀ r ∈ rs, ∃ a ∈ l, f a = .ok r := by
  induction l generalizing rs with
  | nil =>
    intro r hr
    unfold mapMExcept at h
    have hrs : rs = [] := by injection h with h2; exact h2.symm
    subst hrs
    exact absurd hr (by simp)
  | cons a0 l ih =>
    intro r hr
    unfold mapMExcept at h
    cases hf : f a0 with
    | error e => rw [hf] at h; exact absurd h (by simp)
    | ok b =>
      rw [hf] at h
      cases hrest : mapMExcept f l with
      | error e => rw [hrest] at h; exact absurd h (by simp)
      | ok bs =>
        rw [hrest] at h
        have hrs : rs = b :: bs := by injection h with h2; exact h2.symm
        subst hrs
        rcases List.mem_cons.mp hr with rfl | hr2
        · exact ⟨a0, by simp, hf⟩
        · obtain ⟨a, ha, hfa⟩ := ih bs hrest r hr2
          exact ⟨a, by simp [ha], hfa⟩

/-- Inversion of one `_c3_mro` unfolding: a successful run yields
successful recursive runs for all three base groups and a successful merge
of the seven sequences. -/
theorem c3mro_succ_inv (ct : ClassTable) (fuel cls : Nat) (abcs res : List Nat)
    (h : c3mro ct (fuel + 1) cls abcs = .ok res) :
    ∃ em am om,
      mapMExcept (fun b => c3mro ct fuel b (abcs2 ct cls abcs)) (exB ct cls) = .ok em ∧
      mapMExcept (fun b => c3mro ct fuel b (abcs2 ct cls abcs)) (abB ct cls abcs) = .ok am ∧
      mapMExcept (fun b => c3mro ct fuel b (abcs2 ct cls abcs)) (otB ct cls) = .ok om ∧
      c3_merge fuel (mergeInput ct cls abcs em am om) = .ok res := by
  have h2 : (match mapMExcept (fun b => c3mro ct fuel b (abcs2 ct cls abcs))
      (exB ct cls) with
    | Except.error e => Except.error e
    | Except.ok em =>
      match mapMExcept (fun b => c3mro ct fuel b (abcs2 ct cls abcs))
          (abB ct cls abcs) with
      | Except.error e => Except.error e
      | Except.ok am =>
        match mapMExcept (fun b => c3mro ct fuel b (abcs2 ct cls abcs))
            (otB ct cls) with
        | Except.error e => Except.error e
        | Except.ok om => c3_merge fuel (mergeInput ct cls abcs em am om)) =
      Except.ok res := h
  cases h1 : mapMExcept (fun b => c3mro ct fuel b (abcs2 ct cls abcs)) (exB ct cls) with
  | error e => rw [h1] at h2; exact absurd h2 (by simp)
  | ok em =>
    rw [h1] at h2
    have h3 : (match mapMExcept (fun b => c3mro ct fuel b (abcs2 ct cls abcs))
        (abB ct cls abcs) with
      | Except.error e => Except.error e
      | Except.ok am =>
        match mapMExcept (fun b => c3mro ct fuel b (abcs2 ct cls abcs))
            (otB ct cls) with
        | Except.error e => Except.error e
        | Except.ok om => c3_merge fuel (mergeInput ct cls abcs em am om)) =
        Except.ok res := h2
    cases h4 : mapMExcept (fun b => c3mro ct fuel b (abcs2 ct cls abcs))
        (abB ct cls abcs) with
    | error e => rw [h4] at h3; exact absurd h3 (by simp)
    | ok am =>
      rw [h4] at h3
      have h5 : (match mapMExcept (fun b => c3mro ct fuel b (abcs2 ct cls abcs))
          (otB ct cls) with
        | Except.error e => Except.error e
        | Except.ok om => c3_merge fuel (mergeInput ct cls abcs em am om)) =
          Except.ok res := h3
      cases h6 : mapMExcept (fun b => c3mro ct fuel b (abcs2 ct cls abcs))
          (otB ct cls) with
      | error e => rw [h6] at h5; exact absurd h5 (by simp)
      | ok om =>
        rw [h6] at h5
        exact ⟨em, am, om, rfl, rfl, rfl, h5⟩

/-- Merge helper: with only empty sequences the merge returns `[]`. -/
theorem c3_merge_empty (fuel : Nat) (seqs : List (List Nat))
    (h : seqs.filter (fun s => !s.isEmpty) = []) :
    c3_merge (fuel + 1) seqs = .ok [] := by
  show (if (seqs.filter (fun s => !s.isEmpty)).isEmpty = true
      then (Except.ok [] : Except MergeError (List Nat))
      else
        match selectHead (seqs.filter (fun s => !s.isEmpty)) with
        | none => Except.error MergeError.inconsistent
        | some c2 =>
          match c3_merge fuel ((seqs.filter (fun s => !s.isEmpty)).map (removeHead c2)) with
          | Except.ok r => Except.ok (c2 :: r)
          | Except.error e => Except.error e) = Except.ok []
  rw [h]
  rfl

/-- Merge helper: a selected candidate is prepended and its head
occurrences removed before the recursive merge. -/
theorem c3_merge_step (fuel : Nat) (seqs : List (List Nat)) (c : Nat)
    (h : selectHead (seqs.filter (fun s => !s.isEmpty)) = some c) :
    c3_merge (fuel + 1) seqs =
      (c3_merge fuel ((seqs.filter (fun s => !s.isEmpty)).map (removeHead c))).map
        (fun r => c :: r) := by
  have hne : (seqs.filter (fun s => !s.isEmpty)).isEmpty = false := by
    cases hP : seqs.filter (fun s => !s.isEmpty) with
    | nil => rw [hP] at h; exact absurd h (by simp [selectHead, pickSeq])
    | cons a l => simp
  show (if (seqs.filter (fun s => !s.isEmpty)).isEmpty = true
      then (Except.ok [] : Except MergeError (List Nat))
      else
        match selectHead (seqs.filter (fun s => !s.isEmpty)) with
        | none => Except.error MergeError.inconsistent
        | some c2 =>
          match c3_merge fuel ((seqs.filter (fun s => !s.isEmpty)).map (removeHead c2)) with
          | Except.ok r => Except.ok (c2 :: r)
          | Except.error e => Except.error e) = _
  rw [hne, h]
  show (match c3_merge fuel ((seqs.filter (fun s => !s.isEmpty)).map (removeHead c)) with
    | Except.ok r => Except.ok (c :: r)
    | Except.error e => Except.error e) = _
  cases c3_merge fuel ((seqs.filter (fun s => !s.isEmpty)).map (removeHead c)) with
  | ok r => rfl
  | error e => rfl

/-- Merge helper: with no acceptable head the merge fails. -/
theorem c3_merge_fail (fuel : Nat) (seqs : List (List Nat))
    (h1 : seqs.filter (fun s => !s.isEmpty) ≠ [])
    (h2 : selectHead (seqs.filter (fun s => !s.isEmpty)) = none) :
    c3_merge (fuel + 1) seqs = .error .inconsistent := by
  have hne : (seqs.filter (fun s => !s.isEmpty)).isEmpty = false := by
    cases hP : seqs.filter (fun s => !s.isEmpty) with
    | nil => exact absurd hP h1
    | cons a l => simp
  show (if (seqs.filter (fun s => !s.isEmpty)).isEmpty = true
      then (Except.ok [] : Except MergeError (List Nat))
      else
        match selectHead (seqs.filter (fun s => !s.isEmpty)) with
        | none => Except.error MergeError.inconsistent
        | some c2 =>
          match c3_merge fuel ((seqs.filter (fun s => !s.isEmpty)).map (removeHead c2)) with
          | Except.ok r => Except.ok (c2 :: r)
          | Except.error e => Except.error e) = Except.error MergeError.inconsistent
  rw [hne, h2]
  rfl

/-- The accepted candidate appears in no tail of the purged sequences. -/
theorem headOK_spec (P : List (List Nat)) (c : Nat) (h : headOK P c = true) :
    ∀ s ∈ P, c ∉ s.tail := by
  intro s hs
  have h2 := List.all_eq_true.mp h s hs
  simpa using h2

/-- What a successful head selection means: the candidate passes `headOK`
and heads one of the purged sequences. -/
theorem selectHead_spec (P : List (List Nat)) (c : Nat)
    (h : selectHead P = some c) :
    headOK P c = true ∧ ∃ t, (c :: t) ∈ P := by
  unfold selectHead at h
  cases hp : pickSeq P with
  | none => rw [hp] at h; exact absurd h (by simp)
  | some s0 =>
    rw [hp] at h
    have hs0 : s0 ∈ P := List.mem_of_find?_eq_some hp
    have hpred := List.find?_some hp
    cases s0 with
    | nil => simp at h
    | cons c0 t =>
      have hc0 : c0 = c := by
        simp only [Option.some_bind, List.head?] at h
        injection h
      subst hc0
      have hOK : headOK P c0 = true := hpred
      exact ⟨hOK, t, hs0⟩

/-- Inversion of one merge step. -/
theorem c3_merge_succ_inv (fuel : Nat) (seqs : List (List Nat)) (res : List Nat)
    (h : c3_merge (fuel + 1) seqs = .ok res) :
    (seqs.filter (fun s => !s.isEmpty) = [] ∧ res = []) ∨
    (∃ c r, selectHead (seqs.filter (fun s => !s.isEmpty)) = some c ∧
      c3_merge fuel ((seqs.filter (fun s => !s.isEmpty)).map (removeHead c)) = .ok r ∧
      res = c :: r) := by
  by_cases hP : seqs.filter (fun s => !s.isEmpty) = []
  · rw [c3_merge_empty fuel seqs hP] at h
    left
    refine ⟨hP, ?_⟩
    injection h with h2
    exact h2.symm
  · cases hsel : selectHead (seqs.filter (fun s => !s.isEmpty)) with
    | none =>
      rw [c3_merge_fail fuel seqs hP hsel] at h
      exact absurd h (by simp)
    | some c =>
      rw [c3_merge_step fuel seqs c hsel] at h
      cases hrec : c3_merge fuel ((seqs.filter (fun s => !s.isEmpty)).map (removeHead c)) with
      | error e => rw [hrec] at h; exact absurd h (by simp [Except.map])
      | ok r =>
        rw [hrec] at h
        right
        refine ⟨c, r, rfl, hrec, ?_⟩
        simp only [Except.map] at h
        injection h with h2
        exact h2.symm

/-- Membership in `removeHead` implies membership in the sequence. -/
theorem mem_of_mem_removeHead (c x : Nat) (s : List Nat)
    (h : x ∈ removeHead c s) : x ∈ s := by
  cases s with
  | nil => exact absurd h (by simp [removeHead])
  | cons y t =>
    by_cases hy : y = c
    · subst hy
      rw [show removeHead y (y :: t) = t by simp [removeHead]] at h
      exact List.mem_cons_of_mem _ h
    · rw [show removeHead c (y :: t) = y :: t by simp [removeHead, hy]] at h
      exact h

/-- A member other than the candidate survives `removeHead`. -/
theorem mem_removeHead_of_mem (c x : Nat) (s : List Nat)
    (hx : x ∈ s) (hxc : x ≠ c) : x ∈ removeHead c s := by
  cases s with
  | nil => exact absurd hx (by simp)
  | cons y t =>
    by_cases hy : y = c
    · subst hy
      rw [show removeHead y (y :: t) = t by simp [removeHead]]
      rcases List.mem_cons.mp hx with rfl | h3
      · exact absurd rfl hxc
      · exact h3
    · rw [show removeHead c (y :: t) = y :: t by simp [removeHead, hy]]
      exact hx

/-- The elements of a successful merge are exactly the elements of the
input sequences. -/
theorem c3_merge_mem (fuel : Nat) :
    ∀ (seqs : List (List Nat)) (res : List Nat),
      c3_merge fuel seqs = .ok res → ∀ x, (x ∈ res ↔ ∃ s ∈ seqs, x ∈ s) := by
  induction fuel with
  | zero =>
    intro seqs res h
    exact absurd h (by simp [c3_merge])
  | succ fuel ih =>
    intro seqs res h x
    rcases c3_merge_succ_inv fuel seqs res h with ⟨hP, rfl⟩ | ⟨c, r, hsel, hrec, rfl⟩
    · constructor
      · intro hx; exact absurd hx (by simp)
      · rintro ⟨s, hs, hx⟩
        have hmem : s ∈ seqs.filter (fun s2 => !s2.isEmpty) := by
          rw [List.mem_filter]
          refine ⟨hs, ?_⟩
          cases s with
          | nil => exact absurd hx (by simp)
          | cons a t => simp
        rw [hP] at hmem
        exact absurd hmem (by simp)
    · obtain ⟨hOK, t0, ht0⟩ := selectHead_spec _ c hsel
      have hmem := ih _ r hrec
      constructor
      · intro hx
        rcases List.mem_cons.mp hx with rfl | hx2
        · exact ⟨x :: t0, (List.mem_filter.mp ht0).1, by simp⟩
        · obtain ⟨s2, hs2, hx3⟩ := (hmem x).mp hx2
          obtain ⟨s, hs, rfl⟩ := List.mem_map.mp hs2
          exact ⟨s, (List.mem_filter.mp hs).1, mem_of_mem_removeHead c x s hx3⟩
      · rintro ⟨s, hs, hx⟩
        have hsf : s ∈ seqs.filter (fun s2 => !s2.isEmpty) := by
          rw [List.mem_filter]
          refine ⟨hs, ?_⟩
          cases s with
          | nil => exact absurd hx (by simp)
          | cons a t => simp
        by_cases hxc : x = c
        · subst hxc; simp
        · have hx2 : x ∈ removeHead c s := mem_removeHead_of_mem c x s hx hxc
          have hxr : x ∈ r :=
            (hmem x).mpr ⟨removeHead c s, List.mem_map_of_mem _ hsf, hx2⟩
          exact List.mem_cons_of_mem _ hxr

/-- From `[a, b] <+ s`, the second element lies in the tail of `s`. -/
theorem mem_tail_of_pair_sublist (a b : Nat) (s : List Nat)
    (h : [a, b].Sublist s) : b ∈ s.tail := by
  cases s with
  | nil => simp at h
  | cons x t =>
    cases h with
    | cons _ h2 =>
      exact h2.subset (by simp)
    | cons₂ _ h2 =>
      exact h2.subset (by simp)

/-- A pair sublist of `x :: t` with `x ≠ a` is a sublist of `t`. -/
theorem pair_sublist_of_ne_head (a b x : Nat) (t : List Nat) (hxa : x ≠ a)
    (h : [a, b].Sublist (x :: t)) : [a, b].Sublist t := by
  cases h with
  | cons _ h2 => exact h2
  | cons₂ _ h2 => exact absurd rfl hxa

/-- Order preservation of the merge: two elements ordered inside one input
sequence stay in that order in the merged result. -/
theorem c3_merge_sublist (fuel : Nat) :
    ∀ (seqs : List (List Nat)) (res s : List Nat) (a b : Nat),
      a ≠ b → [a, b].Sublist s → s ∈ seqs →
      c3_merge fuel seqs = .ok res → [a, b].Sublist res := by
  induction fuel with
  | zero =>
    intro seqs res s a b _ _ _ h
    exact absurd h (by simp [c3_merge])
  | succ fuel ih =>
    intro seqs res s a b hab hsub hs h
    rcases c3_merge_succ_inv fuel seqs res h with ⟨hP, rfl⟩ | ⟨c, r, hsel, hrec, rfl⟩
    · have hmem : s ∈ seqs.filter (fun s2 => !s2.isEmpty) := by
        rw [List.mem_filter]
        refine ⟨hs, ?_⟩
        cases s with
        | nil => simp at hsub
        | cons y t => simp
      rw [hP] at hmem
      exact absurd hmem (by simp)
    · obtain ⟨hOK, t0, ht0⟩ := selectHead_spec _ c hsel
      have hOKs := headOK_spec _ c hOK
      have hsf : s ∈ seqs.filter (fun s2 => !s2.isEmpty) := by
        rw [List.mem_filter]
        refine ⟨hs, ?_⟩
        cases s with
        | nil => simp at hsub
        | cons y t => simp
      have hbtail : b ∈ s.tail := mem_tail_of_pair_sublist a b s hsub
      have hcb : c ≠ b := by
        intro h0
        subst h0
        exact hOKs s hsf hbtail
      by_cases hca : c = a
      · cases s with
        | nil => simp at hsub
        | cons y t =>
          by_cases hy : y = a
          · have hbt : b ∈ t := by simpa using hbtail
            have hb_r : b ∈ r := by
              apply (c3_merge_mem fuel _ r hrec b).mpr
              refine ⟨removeHead c (y :: t), List.mem_map_of_mem _ hsf, ?_⟩
              rw [show removeHead c (y :: t) = t by simp [removeHead, hy, hca]]
              exact hbt
            rw [hca]
            exact (List.singleton_sublist.mpr hb_r).cons₂ a
          · have h2 : [a, b].Sublist t := pair_sublist_of_ne_head a b y t hy hsub
            have ha_t : a ∈ t := h2.subset (by simp)
            have : c ∈ (y :: t).tail := by
              rw [hca]
              simpa using ha_t
            exact absurd this (hOKs _ hsf)
      · have hsub2 : [a, b].Sublist (removeHead c s) := by
          cases s with
          | nil => simp at hsub
          | cons y t =>
            by_cases hy : y = c
            · subst hy
              rw [show removeHead y (y :: t) = t by simp [removeHead]]
              exact pair_sublist_of_ne_head a b y t (fun h0 => hca (h0 ▸ rfl)) hsub
            · rw [show removeHead c (y :: t) = y :: t by simp [removeHead, hy]]
              exact hsub
        have hmm : removeHead c s ∈ (seqs.filter (fun s2 => !s2.isEmpty)).map (removeHead c) :=
          List.mem_map_of_mem _ hsf
        exact (ih _ r (removeHead c s) a b hab hsub2 hmm hrec).cons c

/-- When the first sequence is `[T]` and `T` occurs in no other sequence,
the merge result starts with `T`. -/
theorem c3_merge_first (fuel : Nat) (T : Nat) (rest : List (List Nat))
    (res : List Nat) (hT : ∀ s ∈ rest, T ∉ s)
    (h : c3_merge (fuel + 1) ([T] :: rest) = .ok res) :
    ∃ r, res = T :: r := by
  have hfil : ([T] :: rest).filter (fun s => !s.isEmpty) =
      [T] :: rest.filter (fun s => !s.isEmpty) := by simp
  have hsel : selectHead (([T] :: rest).filter (fun s => !s.isEmpty)) = some T := by
    rw [hfil]
    unfold selectHead pickSeq
    rw [List.find?_cons_of_pos]
    · rfl
    · show headOK ([T] :: rest.filter (fun s => !s.isEmpty)) T = true
      rw [headOK, List.all_eq_true]
      intro s2 hs2
      rcases List.mem_cons.mp hs2 with rfl | hs3
      · simp
      · have hTn : T ∉ s2 := hT s2 (List.mem_filter.mp hs3).1
        simp only [decide_eq_true_eq]
        intro hmem
        cases s2 with
        | nil => simp at hmem
        | cons z u => exact hTn (List.mem_cons_of_mem _ hmem)
  rcases c3_merge_succ_inv fuel ([T] :: rest) res h with ⟨hP, _⟩ | ⟨c, r, hsel2, hrec, rfl⟩
  · rw [hfil] at hP
    exact absurd hP (by simp)
  · rw [hsel] at hsel2
    have hcT : T = c := by injection hsel2
    exact ⟨r, by rw [hcT]⟩

/-- `Anc ct x y`: `y` is a strict ancestor of `x` through the direct-bases
relation (the concrete inheritance chain). -/
def Anc (ct : ClassTable) : Nat → Nat → Prop :=
  Relation.TransGen (fun x y => y ∈ ct.bases x)

/-- Under topological numbering, strict ancestors have smaller indices. -/
theorem anc_lt (ct : ClassTable) (hB : ∀ c b, b ∈ ct.bases c → b < c)
    (x y : Nat) (h : Anc ct x y) : y < x := by
  induction h with
  | single h2 => exact hB _ _ h2
  | tail h1 h2 ih => exact lt_trans (hB _ _ h2) ih

/-- A successful linearization contains its own class. -/
theorem c3mro_self_mem (ct : ClassTable) (fuel : Nat) :
    ∀ (cls : Nat) (abcs res : List Nat),
      c3mro ct fuel cls abcs = .ok res → cls ∈ res := by
  cases fuel with
  | zero =>
    intro cls abcs res h
    exact absurd h (by simp [c3mro])
  | succ fuel =>
    intro cls abcs res h
    obtain ⟨em, am, om, hem, ham, hom, hm⟩ := c3mro_succ_inv ct fuel cls abcs res h
    exact (c3_merge_mem fuel _ res hm cls).mpr
      ⟨[cls], (mem_mergeInput ct cls abcs em am om [cls]).mpr (Or.inl rfl), by simp⟩

/-- Every element of a successful linearization of `cls` has index at most
`cls` (under topological numbering and order-respecting `issubclass`). -/
theorem c3mro_mem_le (ct : ClassTable)
    (hB : ∀ c b, b ∈ ct.bases c → b < c)
    (hS : ∀ x y, ct.issub x y = true → y ≤ x) (fuel : Nat) :
    ∀ (cls : Nat) (abcs res : List Nat),
      c3mro ct fuel cls abcs = .ok res → ∀ x ∈ res, x ≤ cls := by
  induction fuel with
  | zero =>
    intro cls abcs res h
    exact absurd h (by simp [c3mro])
  | succ fuel ih =>
    intro cls abcs res h x hx
    obtain ⟨em, am, om, hem, ham, hom, hm⟩ := c3mro_succ_inv ct fuel cls abcs res h
    obtain ⟨s, hs, hxs⟩ := (c3_merge_mem fuel _ res hm x).mp hx
    rw [mem_mergeInput] at hs
    rcases hs with rfl | hsem | hsam | hsom | rfl | rfl | rfl
    · have : x = cls := by simpa using hxs
      exact this.le
    · obtain ⟨b0, hb0, hrun⟩ := mapMExcept_ok_mem _ _ em hem s hsem
      have hxb : x ≤ b0 := ih b0 _ s hrun x hxs
      exact le_of_lt (lt_of_le_of_lt hxb (hB cls b0 (mem_bases_of_mem_exB ct cls b0 hb0)))
    · obtain ⟨b0, hb0, hrun⟩ := mapMExcept_ok_mem _ _ am ham s hsam
      have hxb : x ≤ b0 := ih b0 _ s hrun x hxs
      exact le_trans hxb (hS cls b0 (issub_of_mem_abB ct cls b0 abcs hb0))
    · obtain ⟨b0, hb0, hrun⟩ := mapMExcept_ok_mem _ _ om hom s hsom
      have hxb : x ≤ b0 := ih b0 _ s hrun x hxs
      exact le_of_lt (lt_of_le_of_lt hxb (hB cls b0 (mem_bases_of_mem_otB ct cls b0 hb0)))
    · exact le_of_lt (hB cls x (mem_bases_of_mem_exB ct cls x hxs))
    · exact hS cls x (issub_of_mem_abB ct cls x abcs hxs)
    · exact le_of_lt (hB cls x (mem_bases_of_mem_otB ct cls x hxs))

/-- A successful linearization is closed under direct bases: together with
an element it contains each of that element's bases. -/
theorem c3mro_closed_bases (ct : ClassTable) (fuel : Nat) :
    ∀ (cls : Nat) (abcs res : List Nat),
      c3mro ct fuel cls abcs = .ok res →
      ∀ x ∈ res, ∀ b ∈ ct.bases x, b ∈ res := by
  induction fuel with
  | zero =>
    intro cls abcs res h
    exact absurd h (by simp [c3mro])
  | succ fuel ih =>
    intro cls abcs res h x hx b hb
    obtain ⟨em, am, om, hem, ham, hom, hm⟩ := c3mro_succ_inv ct fuel cls abcs res h
    have hmem := c3_merge_mem fuel _ res hm
    obtain ⟨s, hs, hxs⟩ := (hmem x).mp hx
    rw [mem_mergeInput] at hs
    apply (hmem b).mpr
    rcases hs with rfl | hsem | hsam | hsom | rfl | rfl | rfl
    · have hxcls : x = cls := by simpa using hxs
      subst hxcls
      have hb2 : b ∈ exB ct x ++ otB ct x := by rw [exB_append_otB]; exact hb
      rcases List.mem_append.mp hb2 with hbe | hbo
      · exact ⟨exB ct x, (mem_mergeInput ct x abcs em am om _).mpr (by simp), hbe⟩
      · exact ⟨otB ct x, (mem_mergeInput ct x abcs em am om _).mpr (by simp), hbo⟩
    · obtain ⟨b0, hb0, hrun⟩ := mapMExcept_ok_mem _ _ em hem s hsem
      exact ⟨s, (mem_mergeInput ct cls abcs em am om s).mpr (by simp [hsem]),
        ih b0 _ s hrun x hxs b hb⟩
    · obtain ⟨b0, hb0, hrun⟩ := mapMExcept_ok_mem _ _ am ham s hsam
      exact ⟨s, (mem_mergeInput ct cls abcs em am om s).mpr (by simp [hsam]),
        ih b0 _ s hrun x hxs b hb⟩
    · obtain ⟨b0, hb0, hrun⟩ := mapMExcept_ok_mem _ _ om hom s hsom
      exact ⟨s, (mem_mergeInput ct cls abcs em am om s).mpr (by simp [hsom]),
        ih b0 _ s hrun x hxs b hb⟩
    · obtain ⟨r0, hr0, hrun⟩ := mapMExcept_ok_forall _ _ em hem x hxs
      exact ⟨r0, (mem_mergeInput ct cls abcs em am om r0).mpr (by simp [hr0]),
        ih x _ r0 hrun x (c3mro_self_mem ct fuel x _ r0 hrun) b hb⟩
    · obtain ⟨r0, hr0, hrun⟩ := mapMExcept_ok_forall _ _ am ham x hxs
      exact ⟨r0, (mem_mergeInput ct cls abcs em am om r0).mpr (by simp [hr0]),
        ih x _ r0 hrun x (c3mro_self_mem ct fuel x _ r0 hrun) b hb⟩
    · obtain ⟨r0, hr0, hrun⟩ := mapMExcept_ok_forall _ _ om hom x hxs
      exact ⟨r0, (mem_mergeInput ct cls abcs em am om r0).mpr (by simp [hr0]),
        ih x _ r0 hrun x (c3mro_self_mem ct fuel x _ r0 hrun) b hb⟩

/-- A successful linearization is closed under strict ancestors. -/
theorem c3mro_closed_anc (ct : ClassTable) (fuel cls : Nat)
    (abcs res : List Nat) (h : c3mro ct fuel cls abcs = .ok res)
    (x y : Nat) (hx : x ∈ res) (ha : Anc ct x y) : y ∈ res := by
  induction ha with
  | single h2 => exact c3mro_closed_bases ct fuel cls abcs res h x hx _ h2
  | tail h1 h2 ih => exact c3mro_closed_bases ct fuel cls abcs res h _ ih _ h2

/-- C7: consistency of the linearization.  For every class table whose
numbering is topological (`b ∈ bases c → b < c`) and whose `issubclass`
respects it (`issub x y → y ≤ x`) — both true of every real Python
hierarchy under a topological numbering — every successful `_c3_mro` run is
consistent: a type always precedes every one of its own (bases-chain)
ancestors that also appears in the resulting sequence. -/
theorem c7_linearization_consistency :
    ∀ (ct : ClassTable),
      (∀ c b, b ∈ ct.bases c → b < c) →
      (∀ x y, ct.issub x y = true → y ≤ x) →
      ∀ (fuel T : Nat) (abcs res : List Nat),
        c3mro ct fuel T abcs = .ok res →
        ∀ X ∈ res, ∀ Y ∈ res, Anc ct X Y → [X, Y].Sublist res := by
  intro ct hB hS fuel
  induction fuel with
  | zero =>
    intro T abcs res h
    exact absurd h (by simp [c3mro])
  | succ fuel ih =>
    intro T abcs res h X hX Y hY hanc
    obtain ⟨em, am, om, hem, ham, hom, hm⟩ := c3mro_succ_inv ct fuel T abcs res h
    have hmem := c3_merge_mem fuel _ res hm
    have hYX : Y < X := anc_lt ct hB X Y hanc
    have hXYne : X ≠ Y := fun h0 => absurd (h0 ▸ hYX) (lt_irrefl _)
    have generic : ∀ (s : List Nat), s ∈ mergeInput ct T abcs em am om →
        (∃ b0, c3mro ct fuel b0 (abcs2 ct T abcs) = .ok s) → X ∈ s →
        [X, Y].Sublist res := by
      rintro s hsmem ⟨b0, hrun⟩ hXs
      have hYs : Y ∈ s := c3mro_closed_anc ct fuel b0 _ s hrun X Y hXs hanc
      have hsub : [X, Y].Sublist s := ih b0 _ s hrun X hXs Y hYs hanc
      exact c3_merge_sublist fuel _ res s X Y hXYne hsub hsmem hm
    obtain ⟨s, hs, hXs⟩ := (hmem X).mp hX
    have hs2 := (mem_mergeInput ct T abcs em am om s).mp hs
    rcases hs2 with rfl | hsem | hsam | hsom | rfl | rfl | rfl
    · have hXT : X = T := by simpa using hXs
      subst hXT
      by_cases hTab : X ∈ abB ct X abcs
      · obtain ⟨r0, hr0, hrun⟩ := mapMExcept_ok_forall _ _ am ham X hTab
        exact generic r0
          ((mem_mergeInput ct X abcs em am om r0).mpr (by simp [hr0]))
          ⟨X, hrun⟩ (c3mro_self_mem ct fuel X _ r0 hrun)
      · cases fuel with
        | zero => exact absurd hm (by simp [c3_merge])
        | succ g =>
          have hrest : ∀ s2 ∈ (em ++ am ++ om ++ [exB ct X, abB ct X abcs, otB ct X]),
              X ∉ s2 := by
            intro s2 hs2mem hXs2
            rcases List.mem_append.mp hs2mem with h3 | h4
            · rcases List.mem_append.mp h3 with h5 | h6
              · rcases List.mem_append.mp h5 with h7 | h8
                · obtain ⟨b0, hb0, hrun⟩ := mapMExcept_ok_mem _ _ em hem s2 h7
                  have hle : X ≤ b0 := c3mro_mem_le ct hB hS (g + 1) b0 _ s2 hrun X hXs2
                  have hlt : b0 < X := hB X b0 (mem_bases_of_mem_exB ct X b0 hb0)
                  exact absurd (lt_of_le_of_lt hle hlt) (lt_irrefl _)
                · obtain ⟨b0, hb0, hrun⟩ := mapMExcept_ok_mem _ _ am ham s2 h8
                  have hle : X ≤ b0 := c3mro_mem_le ct hB hS (g + 1) b0 _ s2 hrun X hXs2
                  have hle2 : b0 ≤ X := hS X b0 (issub_of_mem_abB ct X b0 abcs hb0)
                  have hb0X : b0 = X := le_antisymm hle2 hle
                  exact hTab (hb0X ▸ hb0)
              · obtain ⟨b0, hb0, hrun⟩ := mapMExcept_ok_mem _ _ om hom s2 h6
                have hle : X ≤ b0 := c3mro_mem_le ct hB hS (g + 1) b0 _ s2 hrun X hXs2
                have hlt : b0 < X := hB X b0 (mem_bases_of_mem_otB ct X b0 hb0)
                exact absurd (lt_of_le_of_lt hle hlt) (lt_irrefl _)
            · rcases List.mem_cons.mp h4 with rfl | h5
              · exact absurd (hB X X (mem_bases_of_mem_exB ct X X hXs2)) (lt_irrefl _)
              · rcases List.mem_cons.mp h5 with rfl | h6
                · exact hTab hXs2
                · rcases List.mem_cons.mp h6 with rfl | h7
                  · exact absurd (hB X X (mem_bases_of_mem_otB ct X X hXs2)) (lt_irrefl _)
                  · exact absurd h7 (by simp)
          have hm2 : c3_merge (g + 1)
              ([X] :: (em ++ am ++ om ++ [exB ct X, abB ct X abcs, otB ct X])) =
              .ok res := hm
          obtain ⟨r, hres⟩ := c3_merge_first g X _ res hrest hm2
          subst hres
          have hYr : Y ∈ r := by
            rcases List.mem_cons.mp hY with rfl | h3
            · exact absurd rfl (Ne.symm hXYne)
            · exact h3
          exact (List.singleton_sublist.mpr hYr).cons₂ X
    · obtain ⟨b0, hb0, hrun⟩ := mapMExcept_ok_mem _ _ em hem s hsem
      exact generic s hs ⟨b0, hrun⟩ hXs
    · obtain ⟨b0, hb0, hrun⟩ := mapMExcept_ok_mem _ _ am ham s hsam
      exact generic s hs ⟨b0, hrun⟩ hXs
    · obtain ⟨b0, hb0, hrun⟩ := mapMExcept_ok_mem _ _ om hom s hsom
      exact generic s hs ⟨b0, hrun⟩ hXs
    · obtain ⟨r0, hr0, hrun⟩ := mapMExcept_ok_forall _ _ em hem X hXs
      exact generic r0
        ((mem_mergeInput ct T abcs em am om r0).mpr (by simp [hr0]))
        ⟨X, hrun⟩ (c3mro_self_mem ct fuel X _ r0 hrun)
    · obtain ⟨r0, hr0, hrun⟩ := mapMExcept_ok_forall _ _ am ham X hXs
      exact generic r0
        ((mem_mergeInput ct T abcs em am om r0).mpr (by simp [hr0]))
        ⟨X, hrun⟩ (c3mro_self_mem ct fuel X _ r0 hrun)
    · obtain ⟨r0, hr0, hrun⟩ := mapMExcept_ok_forall _ _ om hom X hXs
      exact generic r0
        ((mem_mergeInput ct T abcs em am om r0).mpr (by simp [hr0]))
        ⟨X, hrun⟩ (c3mro_self_mem ct fuel X _ r0 hrun)

/-- `exCT2`'s numbering is topological: direct bases have smaller indices. -/
theorem exCT2_topological : ∀ c b, b ∈ exCT2.bases c → b < c := by
  intro c b h
  simp only [exCT2] at h
  split at h
  · simp_all
  · split at h
    · simp_all
    · split at h
      · simp_all
      · split at h
        · simp_all
        · simp at h

/-- `exCT2`'s `issubclass` respects the numbering. -/
theorem exCT2_issub_le : ∀ x y, exCT2.issub x y = true → y ≤ x := by
  intro x y h
  simp only [exCT2, Bool.or_eq_true, decide_eq_true_eq] at h
  rcases h with rfl | h
  · exact le_refl x
  · have hall : ∀ p ∈ ([(1, 0), (2, 1), (2, 0), (3, 0), (4, 0), (4, 2), (4, 1), (4, 3)] :
        List (Nat × Nat)), p.2 ≤ p.1 := by decide
    exact hall (x, y) h

/-- C7 witness: in the concrete hierarchy `exCT2`, the class `4` precedes
its ancestor `object = 0` in its computed linearization. -/
theorem c7_witness : [4, 0].Sublist [4, 2, 1, 3, 0] :=
  c7_linearization_consistency exCT2 exCT2_topological exCT2_issub_le 16 4 [2, 3]
    [4, 2, 1, 3, 0] (by decide) 4 (by decide) 0 (by decide)
    (Relation.TransGen.single (by decide))
